import Mathlib

/-!
Verification of the progression & scoring persistence engine of "The Beavers"
browser game (source: `js/utils.js`, `js/game.js`).

Shallow embedding conventions:
* JavaScript strings are modelled as `List Char` (`Str`), restricted to the
  ASCII range exercised by this code base; `String.prototype.toLowerCase`,
  `trim` and the `\w`/whitespace character classes are modelled on that range.
* The regex operations appearing in the source are each implemented directly:
  `/<\/?[^>]+>/g` (tag stripping), `/[<>&"']/g` (escape removal),
  `/\bhttps?:\/\//i` and `/\b\w+\.(com|net|org|edu)\b/i` (URL detection),
  `/^https?:\/\//i` (scheme prefix removal).  The optional `\/?` of the tag
  pattern is subsumed by `[^>]+`, so the pattern matches `<`, then one or more
  non-`>` characters, then the first `>`.
* A user-supplied `winRegex` is a host `RegExp` object; it is embedded by its
  observable behaviour: whether compilation succeeds and, if so, its `test`
  function (which receives the JS `ToString` of its argument).
* `localStorage` holds raw strings; a stored raw string is embedded by its
  parse outcome: `missing` (no item / falsy), `notJson` (`JSON.parse` throws)
  or `doc v` (parses to the document `v`).  `parseAttempt` models the body of
  the `try` in `safeParse`, with `Except.error` standing for a thrown
  exception.
* Nondeterministic session-id generation (`"sess-" + random`) is modelled by
  passing the random component as an explicit `freshId` argument.
-/

set_option maxRecDepth 8000

namespace Beavers

/-- JavaScript strings, as lists of characters. -/
abbrev Str := List Char

/-- Characters of a Lean string literal, used to write concrete inputs. -/
def strL (s : String) : Str := s.data

/-- `String.prototype.toLowerCase` on one character (ASCII range). -/
def jsLowerChar (c : Char) : Char := c.toLower

/-- `String.prototype.toLowerCase`. -/
def jsLower (s : Str) : Str := s.map jsLowerChar

/-- Whitespace as removed by `String.prototype.trim` (ASCII range). -/
def isWs (c : Char) : Bool := c.isWhitespace

/-- `String.prototype.trim`: drop whitespace from both ends. -/
def jsTrim (s : Str) : Str :=
  ((s.dropWhile isWs).reverse.dropWhile isWs).reverse

/-- Consume characters up to and including the first `'>'` (the `[^>]+>` tail
of the tag pattern, the `+` being satisfied by the caller); `none` when no
`'>'` remains. -/
def skipToGt : Str → Option Str
  | [] => none
  | c :: rest => if c = '>' then some rest else skipToGt rest

/-- Directly after a `'<'`, try to match the rest of `<\/?[^>]+>`: at least
one non-`'>'` character followed by `'>'`.  Returns the remainder after the
match. -/
def findTag : Str → Option Str
  | [] => none
  | c :: rest => if c = '>' then none else skipToGt rest

/-- Fuel-driven scan for the global replace of `/<\/?[^>]+>/g` by `""`;
`fuel ≥ length of the input` makes the fuel bound irrelevant. -/
def stripTagsGo : Nat → Str → Str
  | _, [] => []
  | 0, s => s
  | fuel + 1, c :: rest =>
    if c = '<' then
      match findTag rest with
      | some after => stripTagsGo fuel after
      | none => c :: stripTagsGo fuel rest
    else c :: stripTagsGo fuel rest

/-- `stripTags` from `js/utils.js`: `text.replace(/<\/?[^>]+>/g, "")`. -/
def stripTags (s : Str) : Str := stripTagsGo s.length s

/-- Membership in the character class `[<>&"']`. -/
def escapeChar (c : Char) : Bool :=
  c = '<' || c = '>' || c = '&' || c = Char.ofNat 34 || c = Char.ofNat 39

/-- `removeEscapeChars` from `js/utils.js`: `text.replace(/[<>&"']/g, "")`. -/
def removeEscapeChars (s : Str) : Str := s.filter (fun c => !escapeChar c)

/-- JS `\w`: `[A-Za-z0-9_]` (ASCII range). -/
def isWordChar (c : Char) : Bool := c.isAlpha || c.isDigit || c = '_'

/-- Case-insensitive "starts with", the pattern being already lowercase. -/
def leadsWithCI : Str → Str → Bool
  | [], _ => true
  | _ :: _, [] => false
  | p :: ps, c :: cs => (jsLowerChar c = p) && leadsWithCI ps cs

/-- Does `s` start with `http://` or `https://` (case-insensitively)?  The
greedy optional `s?` of `https?:\/\/` is equivalent to this disjunction. -/
def schemeAt (s : Str) : Bool :=
  leadsWithCI (strL "http://") s || leadsWithCI (strL "https://") s

/-- Is there a word boundary before a word character whose predecessor is
`prev` (`none` = start of string)? -/
def boundaryOK : Option Char → Bool
  | none => true
  | some p => !isWordChar p

/-- Is the preceding character (`none` = start of string) a word character? -/
def prevIsWord : Option Char → Bool
  | none => false
  | some p => isWordChar p

/-- Scan for `/\bhttps?:\/\//i`: a position with a word boundary before it at
which the scheme starts.  `prev` is the character before the current
position. -/
def schemeScan (prev : Option Char) : Str → Bool
  | [] => false
  | c :: rest => (boundaryOK prev && schemeAt (c :: rest)) || schemeScan (some c) rest

/-- Do three characters spell one of the TLDs `com|net|org|edu`
(case-insensitively)? -/
def tldTriple (a b c : Char) : Bool :=
  ([jsLowerChar a, jsLowerChar b, jsLowerChar c] = strL "com") ||
  ([jsLowerChar a, jsLowerChar b, jsLowerChar c] = strL "net") ||
  ([jsLowerChar a, jsLowerChar b, jsLowerChar c] = strL "org") ||
  ([jsLowerChar a, jsLowerChar b, jsLowerChar c] = strL "edu")

/-- Directly after a `'.'`: one of the TLDs followed by a word boundary. -/
def tldAfterDot : Str → Bool
  | a :: b :: c :: rest =>
    tldTriple a b c &&
      (match rest with
       | [] => true
       | d :: _ => !isWordChar d)
  | _ => false

/-- Scan for `/\b\w+\.(com|net|org|edu)\b/i`: a `'.'` immediately preceded by
a word character (the end of the `\b\w+` run) and followed by a TLD and a word
boundary. -/
def tldScan (prev : Option Char) : Str → Bool
  | [] => false
  | c :: rest => (c = '.' && prevIsWord prev && tldAfterDot rest) || tldScan (some c) rest

/-- `isUrlish` from `js/utils.js`:
`/\bhttps?:\/\//i.test(text) || /\b\w+\.(com|net|org|edu)\b/i.test(text)`. -/
def isUrlish (s : Str) : Bool := schemeScan none s || tldScan none s

/-- The default username `"Player"`. -/
def playerName : Str := strL "Player"

/-- `sanitizeUsername` from `js/utils.js`. -/
def sanitizeUsername (raw : Str) : Str :=
  let r1 := jsTrim raw
  let r2 := stripTags r1
  let r3 := removeEscapeChars r2
  let r4 :=
    if isUrlish r3 then
      let firstPart := r3.takeWhile (fun c => !(c = '/' || c = '?' || c = '#'))
      let seg := firstPart.takeWhile (fun c => !(c = '.'))
      if seg = [] then playerName else seg
    else r3
  let r5 := jsTrim r4
  if r5 = [] then playerName else r5

/-- `result.replace(/^https?:\/\//i, "")`: remove one scheme prefix at the
start of the string, if present. -/
def stripScheme (s : Str) : Str :=
  if leadsWithCI (strL "https://") s then s.drop 8
  else if leadsWithCI (strL "http://") s then s.drop 7
  else s

/-- `sanitizeAnswer` from `js/utils.js`. -/
def sanitizeAnswer (raw : Str) : Str :=
  let r1 := jsTrim raw
  let r2 := stripTags r1
  let r3 := removeEscapeChars r2
  let r4 := if isUrlish r3 then stripScheme r3 else r3
  jsTrim r4

/-- `MAX_INPUT_LENGTH` from `js/utils.js`. -/
def MAX_INPUT_LENGTH : Nat := 2000

/-- Result shape of `clampInput`: `{ ok, value?, message? }`. -/
structure ClampResult where
  ok : Bool
  value : Option Str
  message : Option Str
deriving DecidableEq

/-- The rejection message of `clampInput`. -/
def lengthLimitMsg : Str := strL "Please limit input to 2,000 characters."

/-- `clampInput` from `js/utils.js`. -/
def clampInput (raw : Str) : ClampResult :=
  if raw.length > MAX_INPUT_LENGTH then { ok := false, value := none, message := some lengthLimitMsg }
  else { ok := true, value := some raw, message := none }

/-- A host `RegExp` compiled from a `winRegex` string with flag `"i"`,
embedded by its observable behaviour: whether `new RegExp(..)` succeeded and,
if so, its `test` function.  The case-insensitivity is part of `test`. -/
structure JsRegex where
  compiles : Bool
  test : Str → Bool

/-- A level descriptor from `js/levels.js` as consumed by `checkWin` and
`submitGuess`.  `winKeywords = none` models a missing / non-array field
(`Array.isArray` fails); a `none` list entry models a null/undefined keyword.
`winRegex = none` models a falsy `winRegex` (absent or the empty string). -/
structure GameLevel where
  id : Nat
  systemPrompt : Str
  winKeywords : Option (List (Option Str))
  winRegex : Option JsRegex

/-- `x || ""` for a possibly absent string. -/
def jsOrEmpty : Option Str → Str
  | none => []
  | some s => s

/-- Case-sensitive "starts with" on already-normalised strings. -/
def leadsWith : Str → Str → Bool
  | [], _ => true
  | _ :: _, [] => false
  | p :: ps, c :: cs => (p = c) && leadsWith ps cs

/-- `haystack.indexOf(pat) !== -1`: does `pat` occur as a contiguous run? -/
def hasRun (pat : Str) : Str → Bool
  | [] => leadsWith pat []
  | c :: rest => leadsWith pat (c :: rest) || hasRun pat rest

/-- The keyword loop of `checkWin`: for each entry, take
`String(entry || "").toLowerCase()`, skip it when empty, and return true on
the first entry occurring in the lowered reply. -/
def kwLoop (kws : List (Option Str)) (lower : Str) : Bool :=
  match kws with
  | [] => false
  | k :: rest =>
    let keyword := jsLower (jsOrEmpty k)
    (!(keyword = []) && hasRun keyword lower) || kwLoop rest lower

/-- JS `ToString` of the reply as passed to `RegExp.prototype.test`
(`undefined` stringifies to `"undefined"`). -/
def jsToStringArg : Option Str → Str
  | none => strL "undefined"
  | some s => s

/-- `checkWin` from `js/game.js`. -/
def checkWin (level : GameLevel) (replyText : Option Str) : Bool :=
  let lower := jsLower (jsOrEmpty replyText)
  let kwHit :=
    match level.winKeywords with
    | some kws => kwLoop kws lower
    | none => false
  if kwHit then true
  else
    match level.winRegex with
    | some regex => if regex.compiles then regex.test (jsToStringArg replyText) else false
    | none => false

/-- A raw value held at one `localStorage` key, embedded by its parse
outcome: `missing` (no item stored, or the empty string — both falsy),
`notJson` (a string on which `JSON.parse` throws) or `doc v` (a string
parsing to the document `v`). -/
inductive StoredRaw (α : Type) where
  | missing : StoredRaw α
  | notJson : StoredRaw α
  | doc : α → StoredRaw α

/-- The body of the `try` in `safeParse`:
`value ? JSON.parse(value) : fallback`, with `Except.error` standing for a
thrown exception. -/
def parseAttempt {α : Type} : StoredRaw α → α → Except Unit α
  | .missing, fallback => .ok fallback
  | .notJson, _ => .error ()
  | .doc v, _ => .ok v

/-- `safeParse` from `js/utils.js`: the `try`/`catch` wrapper returning the
fallback when the parse attempt throws. -/
def safeParse {α : Type} (value : StoredRaw α) (fallback : α) : α :=
  match parseAttempt value fallback with
  | .ok v => v
  | .error _ => fallback

/-- `getStorage` from `js/utils.js`. -/
def getStorage {α : Type} (stored : StoredRaw α) (fallback : α) : α :=
  safeParse stored fallback

/-- Chat roles in a level's `chatHistory`. -/
inductive Role where
  | user : Role
  | beaver : Role
deriving DecidableEq

/-- One chat message `{ role, text }`. -/
structure ChatMsg where
  role : Role
  text : Str
deriving DecidableEq

/-- The `uiSession` document `{ screenType, levelId, username, developerMode }`.
`username = none` models a missing/null field. -/
structure UiSessionDoc where
  screenType : Str
  levelId : Option Nat
  username : Option Str
  developerMode : Bool

/-- The `gameState` document.  `levels` maps a level id to its runtime state
(`none` = key absent); `sessionId = none` models a missing/null field. -/
structure GameStateDoc where
  sessionId : Option Str
  currentLevel : Nat
  completedLevels : List Nat
  levels : Nat → Option (List ChatMsg)

/-- One leaderboard entry `{ sessionId, username, completedLevels, score }`.
`completedLevels = none` models a legacy entry without that field (the code
guards with `if (!existing.completedLevels)`). -/
structure LBEntry where
  sessionId : Option Str
  username : Str
  completedLevels : Option (List Nat)
  score : Nat
deriving DecidableEq

/-- The three persisted keys of `STORAGE_KEYS`. -/
structure Store where
  uiSession : StoredRaw UiSessionDoc
  gameState : StoredRaw GameStateDoc
  leaderboard : StoredRaw (List LBEntry)

/-- The fallback `uiSession` document. -/
def uiFallback : UiSessionDoc :=
  { screenType := strL "home", levelId := none, username := some playerName,
    developerMode := false }

/-- `getUiSession` from `js/utils.js`. -/
def getUiSession (st : Store) : UiSessionDoc := getStorage st.uiSession uiFallback

/-- `setUiSession` from `js/utils.js`. -/
def setUiSession (st : Store) (s : UiSessionDoc) : Store := { st with uiSession := .doc s }

/-- The fallback `gameState` document. -/
def gameStateFallback : GameStateDoc :=
  { sessionId := none, currentLevel := 1, completedLevels := [], levels := fun _ => none }

/-- JS falsiness of a possibly-missing string (`null`, `undefined` and `""`
are falsy). -/
def jsFalsyStr : Option Str → Bool
  | none => true
  | some s => s = []

/-- The `"sess-"` prefix of generated session ids. -/
def sessPre : Str := strL "sess-"

/-- `getGameState` from `js/utils.js`.  `freshId` is the random component of
the generated session id; the second component of the result is the store
after the write-back that a regeneration performs. -/
def getGameState (st : Store) (freshId : Str) : GameStateDoc × Store :=
  let state := getStorage st.gameState gameStateFallback
  if jsFalsyStr state.sessionId then
    let state2 := { state with sessionId := some (sessPre ++ freshId) }
    (state2, { st with gameState := .doc state2 })
  else (state, st)

/-- `setGameState` from `js/utils.js`. -/
def setGameState (st : Store) (s : GameStateDoc) : Store := { st with gameState := .doc s }

/-- `getLeaderboard` from `js/utils.js`. -/
def getLeaderboard (st : Store) : List LBEntry := getStorage st.leaderboard []

/-- `setLeaderboard` from `js/utils.js`. -/
def setLeaderboard (st : Store) (entries : List LBEntry) : Store :=
  { st with leaderboard := .doc entries }

/-- `session.username || "Player"`. -/
def jsOrPlayer : Option Str → Str
  | none => playerName
  | some s => if s = [] then playerName else s

/-- The ordering used by `entries.sort((a, b) => b.score - a.score)`. -/
def scoreRel (a b : LBEntry) : Prop := b.score ≤ a.score

instance : DecidableRel scoreRel := fun a b => Nat.decLe b.score a.score

instance : IsTotal LBEntry scoreRel := ⟨fun a b => Nat.le_total b.score a.score⟩

instance : IsTrans LBEntry scoreRel := ⟨fun _ _ _ h1 h2 => Nat.le_trans h2 h1⟩

/-- `entries.sort((a, b) => b.score - a.score)`: JS `Array.prototype.sort` is
a stable sort, and the output of a stable sort under a total preorder is
unique, so stable insertion sort computes it. -/
def sortByScoreDesc (l : List LBEntry) : List LBEntry := List.insertionSort scoreRel l

/-- `completedLevels.sort((a, b) => a - b)`: stable numeric ascending sort. -/
def sortLevelsAsc (l : List Nat) : List Nat := List.insertionSort (· ≤ ·) l

/-- The mutation `updateLeaderboardForLevel` applies to the entry found for
the current username: initialize a missing `completedLevels`, add the level
if absent (sorting ascending when added), recompute `score`, refresh
`sessionId`. -/
def refreshEntry (sid : Option Str) (levelId : Nat) (e : LBEntry) : LBEntry :=
  let cl := e.completedLevels.getD []
  let cl2 := if levelId ∈ cl then cl else sortLevelsAsc (cl ++ [levelId])
  { e with completedLevels := some cl2, score := cl2.length, sessionId := sid }

/-- The entry `updateLeaderboardForLevel` pushes for a username not yet on
the leaderboard. -/
def freshEntry (sid : Option Str) (username : Str) (levelId : Nat) : LBEntry :=
  { sessionId := sid, username := username, completedLevels := some [levelId], score := 1 }

/-- In-place mutation through `entries.find(...)`: apply `f` to the first
entry with the given username, leaving the array order unchanged. -/
def updateFirst (username : Str) (f : LBEntry → LBEntry) : List LBEntry → List LBEntry
  | [] => []
  | e :: rest =>
    if e.username = username then f e :: rest else e :: updateFirst username f rest

/-- The find/update-or-push step of `updateLeaderboardForLevel`. -/
def updateEntries (username : Str) (sid : Option Str) (levelId : Nat)
    (entries : List LBEntry) : List LBEntry :=
  if entries.any (fun e => e.username = username) then
    updateFirst username (refreshEntry sid levelId) entries
  else entries ++ [freshEntry sid username levelId]

/-- The pure core of `updateLeaderboardForLevel`: update or push, sort by
score descending (stable), trim to the top 100. -/
def updateLBCore (username : Str) (sid : Option Str) (levelId : Nat)
    (entries : List LBEntry) : List LBEntry :=
  (sortByScoreDesc (updateEntries username sid levelId entries)).take 100

/-- `updateLeaderboardForLevel` from `js/utils.js`. -/
def updateLeaderboardForLevel (st : Store) (freshId : Str) (levelId : Nat) : Store :=
  let session := getUiSession st
  let p := getGameState st freshId
  let username := jsOrPlayer session.username
  let entries := getLeaderboard p.2
  setLeaderboard p.2 (updateLBCore username p.1.sessionId levelId entries)

/-- `recordLevelComplete` from `js/utils.js`. -/
def recordLevelComplete (st : Store) (freshId : Str) (levelId : Nat) : Store :=
  let p := getGameState st freshId
  let state := p.1
  let cl :=
    if levelId ∈ state.completedLevels then state.completedLevels
    else state.completedLevels ++ [levelId]
  let cur :=
    if state.currentLevel ≤ levelId then levelId + 1 else state.currentLevel
  let state2 := { state with completedLevels := cl, currentLevel := cur }
  let st2 := setGameState p.2 state2
  updateLeaderboardForLevel st2 freshId levelId

/-- The outcome of a guess submission: rejected with a user-facing message,
an immediate win (`true` = fresh completion), or pending on the external
reply collaborator. -/
inductive Outcome where
  | rejected : Str → Outcome
  | win : Bool → Outcome
  | pending : Outcome
deriving DecidableEq

/-- The observable result of `submitGuess`: its outcome, the store it leaves
behind, and whether `callGemini` was invoked. -/
structure SubmitResult where
  outcome : Outcome
  store : Store
  geminiCalled : Bool

/-- The rejection message for an empty sanitized guess. -/
def emptyGuessMsg : Str := strL "Please enter text before sending."

/-- `appendMessage` from `js/game.js`, restricted to its persistent effect:
push one message onto the level's `chatHistory` and `setGameState`. -/
def appendChat (st : Store) (levelId : Nat) (role : Role) (text : Str) : Store :=
  let state := getStorage st.gameState gameStateFallback
  let hist := (state.levels levelId).getD []
  let state2 :=
    { state with
      levels := fun k => if k = levelId then some (hist ++ [⟨role, text⟩]) else state.levels k }
  setGameState st state2

/-- `submitGuess` from `js/game.js` (persistent effects and control flow;
DOM rendering and the asynchronous reply are outside the engine, the latter
recorded by the `geminiCalled` flag of a `pending` outcome). -/
def submitGuess (level : GameLevel) (st : Store) (freshId : Str) (raw : Str) : SubmitResult :=
  let lengthCheck := clampInput raw
  if lengthCheck.ok = false then
    { outcome := .rejected (lengthCheck.message.getD []), store := st, geminiCalled := false }
  else
    let guess := sanitizeAnswer (lengthCheck.value.getD [])
    if guess = [] then
      { outcome := .rejected emptyGuessMsg, store := st, geminiCalled := false }
    else
      let state := getStorage st.gameState gameStateFallback
      let isAlreadyCompleted := level.id ∈ state.completedLevels
      if checkWin level (some guess) then
        let st2 := appendChat st level.id .user guess
        if isAlreadyCompleted then
          { outcome := .win false, store := st2, geminiCalled := false }
        else
          { outcome := .win true, store := recordLevelComplete st2 freshId level.id,
            geminiCalled := false }
      else
        { outcome := .pending, store := appendChat st level.id .user guess,
          geminiCalled := true }

/-- `entries.find(e => e.username === u)?.score`: the score shown for a
username (the first matching entry, as the code itself looks entries up). -/
def lookupScore (u : Str) (lb : List LBEntry) : Option Nat :=
  (lb.find? (fun e => e.username = u)).map (fun e => e.score)

/-! ### Supporting lemmas: `checkWin` -/

/-- The keyword part of `checkWin` as a standalone function. -/
def kwHitB (level : GameLevel) (R : Option Str) : Bool :=
  match level.winKeywords with
  | some kws => kwLoop kws (jsLower (jsOrEmpty R))
  | none => false

/-- The pattern part of `checkWin` as a standalone function. -/
def patMatches (level : GameLevel) (R : Option Str) : Bool :=
  match level.winRegex with
  | some regex => regex.compiles && regex.test (jsToStringArg R)
  | none => false

/-- Keyword matching as the specification states it, restricted to keywords
that are nonempty after JS string coercion. -/
def kwMatches (level : GameLevel) (R : Option Str) : Prop :=
  ∃ k ∈ level.winKeywords.getD [], jsLower (jsOrEmpty k) ≠ [] ∧
    hasRun (jsLower (jsOrEmpty k)) (jsLower (jsOrEmpty R)) = true

theorem checkWin_eq_or (level : GameLevel) (R : Option Str) :
    checkWin level R = (kwHitB level R || patMatches level R) := by
  unfold checkWin kwHitB patMatches
  cases level.winKeywords with
  | none => simp
  | some kws => by_cases h : kwLoop kws (jsLower (jsOrEmpty R)) <;> simp [h]

theorem kwLoop_eq_true_iff (kws : List (Option Str)) (lower : Str) :
    kwLoop kws lower = true ↔
      ∃ k ∈ kws, jsLower (jsOrEmpty k) ≠ [] ∧ hasRun (jsLower (jsOrEmpty k)) lower = true := by
  induction kws with
  | nil => simp [kwLoop]
  | cons k rest ih =>
    simp only [kwLoop, Bool.or_eq_true, Bool.and_eq_true, ih, List.mem_cons]
    constructor
    · rintro (⟨h1, h2⟩ | ⟨k2, hk2, h⟩)
      · exact ⟨k, Or.inl rfl, by simpa using h1, h2⟩
      · exact ⟨k2, Or.inr hk2, h⟩
    · rintro ⟨k2, (rfl | hk2), h1, h2⟩
      · exact Or.inl ⟨by simpa using h1, h2⟩
      · exact Or.inr ⟨k2, hk2, h1, h2⟩

theorem kwHitB_iff (level : GameLevel) (R : Option Str) :
    kwHitB level R = true ↔ kwMatches level R := by
  unfold kwHitB kwMatches
  cases level.winKeywords with
  | none => simp
  | some kws => simpa using kwLoop_eq_true_iff kws (jsLower (jsOrEmpty R))

/-! ### Supporting lemmas: storage -/

theorem sessPre_append_ne_nil (freshId : Str) : sessPre ++ freshId ≠ [] := by
  simp [sessPre, strL]

theorem getGameState_fst_sessionId_ok (st : Store) (freshId : Str) :
    jsFalsyStr (getGameState st freshId).1.sessionId = false := by
  unfold getGameState
  dsimp only
  split
  · simp [jsFalsyStr, sessPre, strL]
  · next h => simpa using h

theorem getGameState_read (st : Store) (freshId : Str) :
    getStorage (getGameState st freshId).2.gameState gameStateFallback =
      (getGameState st freshId).1 := by
  unfold getGameState
  dsimp only
  split <;> rfl

theorem getGameState_snd_uiSession (st : Store) (freshId : Str) :
    (getGameState st freshId).2.uiSession = st.uiSession := by
  unfold getGameState
  dsimp only
  split <;> rfl

theorem getGameState_snd_leaderboard (st : Store) (freshId : Str) :
    (getGameState st freshId).2.leaderboard = st.leaderboard := by
  unfold getGameState
  dsimp only
  split <;> rfl

theorem getGameState_fst_completedLevels (st : Store) (freshId : Str) :
    (getGameState st freshId).1.completedLevels =
      (getStorage st.gameState gameStateFallback).completedLevels := by
  unfold getGameState
  dsimp only
  split <;> rfl

theorem getGameState_fst_currentLevel (st : Store) (freshId : Str) :
    (getGameState st freshId).1.currentLevel =
      (getStorage st.gameState gameStateFallback).currentLevel := by
  unfold getGameState
  dsimp only
  split <;> rfl

theorem bool_eq_of_iff {a b : Bool} (h : a = true ↔ b = true) : a = b := by
  cases a <;> cases b <;> simp_all

/-! ### Concrete fixtures used by witnesses and counterexamples -/

/-- A store with nothing persisted yet. -/
def emptyStore : Store :=
  { uiSession := .missing, gameState := .missing, leaderboard := .missing }

/-- A store whose persisted game state fails to parse. -/
def corruptStore : Store :=
  { uiSession := .missing, gameState := .notJson, leaderboard := .missing }

/-- Level 3 of the catalog, as far as the win condition is concerned. -/
def willowLevel : GameLevel :=
  { id := 3, systemPrompt := [], winKeywords := some [some (strL "willow")],
    winRegex := none }

/-- A level whose keyword list contains only entries that coerce to the empty
string. -/
def emptyKwLevel : GameLevel :=
  { id := 1, systemPrompt := [], winKeywords := some [some [], none], winRegex := none }

/-- A compiled pattern that matches every string — the behaviour of the JS
regex `a*` (with flag `i`), which in particular matches the empty string. -/
def matchAllRegex : JsRegex := { compiles := true, test := fun _ => true }

/-- A level winning only through its pattern. -/
def patternOnlyLevel : GameLevel :=
  { id := 1, systemPrompt := [], winKeywords := some [], winRegex := some matchAllRegex }

/-- A two-keyword level used to exercise keyword-order independence. -/
def twoKwLevel : GameLevel :=
  { id := 2, systemPrompt := [], winKeywords := some [some (strL "bark"), some (strL "mud")],
    winRegex := none }

/-- The reply used by the C4 witness. -/
def mudReply : Option Str := some (strL "the MUD is here")

/-! ### C8 -/

/-- C8: for every persisted key and every stored raw value — including
missing values and strings that are not valid JSON — the safe-parse layer
returns the documented fallback in the missing/corrupt cases instead of
propagating the modelled `JSON.parse` exception (`safeParse` is total: the
`catch` turns the `Except.error` of `parseAttempt` into the fallback); in
particular `getGameState` returns the default
`{ currentLevel: 1, completedLevels: [], levels: {} }` shape with a freshly
generated session id when the stored game state is absent or unparseable. -/
theorem safeParse_and_getGameState_defaults :
    (∀ (α : Type) (v : StoredRaw α) (fb : α),
        v = StoredRaw.missing ∨ v = StoredRaw.notJson → safeParse v fb = fb) ∧
    (∀ (st : Store) (freshId : Str),
        st.gameState = StoredRaw.missing ∨ st.gameState = StoredRaw.notJson →
          (getGameState st freshId).1 =
            { sessionId := some (sessPre ++ freshId), currentLevel := 1,
              completedLevels := [], levels := fun _ => none }) := by
  constructor
  · rintro α v fb (rfl | rfl) <;> rfl
  · rintro st freshId (h | h) <;>
      simp [getGameState, getStorage, safeParse, parseAttempt, h, jsFalsyStr,
        gameStateFallback]

/-- C8 witness: concrete corrupt values fall back to the defaults. -/
theorem safeParse_and_getGameState_defaults_w :
    safeParse (StoredRaw.notJson : StoredRaw Nat) 7 = 7 ∧
    (getGameState corruptStore (strL "r")).1 =
      { sessionId := some (sessPre ++ strL "r"), currentLevel := 1,
        completedLevels := [], levels := fun _ => none } :=
  ⟨safeParse_and_getGameState_defaults.1 Nat StoredRaw.notJson 7 (Or.inr rfl),
   safeParse_and_getGameState_defaults.2 corruptStore (strL "r") (Or.inr rfl)⟩

/-! ### C6 -/

/-- C6: an over-long raw guess is rejected with the length message before any
state mutation (the returned store is the input store and the collaborator is
not called); a guess sanitizing to empty is likewise rejected; and for any
raw text within the bound, `clampInput` passes the value through unchanged. -/
theorem submitGuess_rejects (level : GameLevel) (st : Store) (freshId : Str) (raw : Str) :
    (MAX_INPUT_LENGTH < raw.length →
        submitGuess level st freshId raw =
          { outcome := .rejected lengthLimitMsg, store := st, geminiCalled := false }) ∧
    (raw.length ≤ MAX_INPUT_LENGTH → sanitizeAnswer raw = [] →
        submitGuess level st freshId raw =
          { outcome := .rejected emptyGuessMsg, store := st, geminiCalled := false }) ∧
    (raw.length ≤ MAX_INPUT_LENGTH →
        clampInput raw = { ok := true, value := some raw, message := none }) := by
  refine ⟨fun h => ?_, fun h1 h2 => ?_, fun h1 => ?_⟩
  · simp [submitGuess, clampInput, h]
  · simp [submitGuess, clampInput, Nat.not_lt.mpr h1, h2]
  · simp [clampInput, Nat.not_lt.mpr h1]

/-- C6 witness: a 2001-character guess and an all-whitespace guess are both
rejected without touching the store; a short guess passes the clamp
unchanged. -/
theorem submitGuess_rejects_w :
    submitGuess willowLevel emptyStore (strL "r") (List.replicate 2001 'a') =
      { outcome := .rejected lengthLimitMsg, store := emptyStore, geminiCalled := false } ∧
    submitGuess willowLevel emptyStore (strL "r") [' '] =
      { outcome := .rejected emptyGuessMsg, store := emptyStore, geminiCalled := false } ∧
    clampInput (strL "hi") = { ok := true, value := some (strL "hi"), message := none } := by
  refine ⟨(submitGuess_rejects willowLevel emptyStore (strL "r") _).1 ?_,
    (submitGuess_rejects willowLevel emptyStore (strL "r") _).2.1 ?_ ?_,
    (submitGuess_rejects willowLevel emptyStore (strL "r") _).2.2 ?_⟩
  · rw [List.length_replicate]; decide
  · decide
  · decide
  · decide

/-! ### C5 -/

/-- C5: when the raw guess passes the length clamp and sanitizes to a
non-empty text satisfying the level's win condition, `submitGuess` produces a
win outcome (fresh iff the level was not already completed) without invoking
the reply collaborator. -/
theorem submitGuess_win_short_circuit (level : GameLevel) (st : Store) (freshId : Str)
    (raw : Str) (hok : (clampInput raw).ok = true) (hne : sanitizeAnswer raw ≠ [])
    (hwin : checkWin level (some (sanitizeAnswer raw)) = true) :
    (submitGuess level st freshId raw).geminiCalled = false ∧
    (submitGuess level st freshId raw).outcome =
      (if level.id ∈ (getStorage st.gameState gameStateFallback).completedLevels
        then Outcome.win false else Outcome.win true) := by
  have hlen : ¬ MAX_INPUT_LENGTH < raw.length := by
    intro h
    simp [clampInput, h] at hok
  by_cases hc : level.id ∈ (getStorage st.gameState gameStateFallback).completedLevels <;>
    simp [submitGuess, clampInput, hlen, hne, hwin, hc]

/-- C5 witness: on level 3 (`winKeywords = ["willow"]`) the guess
`"I love willow trees"` wins immediately, without calling the collaborator. -/
theorem submitGuess_win_short_circuit_w :
    (submitGuess willowLevel emptyStore (strL "r") (strL "I love willow trees")).geminiCalled =
      false ∧
    (submitGuess willowLevel emptyStore (strL "r") (strL "I love willow trees")).outcome =
      (if willowLevel.id ∈ (getStorage emptyStore.gameState gameStateFallback).completedLevels
        then Outcome.win false else Outcome.win true) :=
  submitGuess_win_short_circuit willowLevel emptyStore (strL "r")
    (strL "I love willow trees") (by decide) (by decide) (by decide)

/-! ### C9 -/

/-- C9: a keyword entry that is the empty string (or null/undefined, which
coerces to the empty string) is skipped by the keyword loop — filtering such
entries out does not change the result — and a level whose keyword list
consists only of such entries (and which has no pattern) never wins, even
though the empty string occurs in every reply. -/
theorem checkWin_skips_empty_keywords :
    (∀ (kws : List (Option Str)) (lower : Str),
        kwLoop kws lower =
          kwLoop (kws.filter (fun k => !(jsLower (jsOrEmpty k) = []))) lower) ∧
    (∀ (level : GameLevel) (kws : List (Option Str)) (R : Option Str),
        level.winKeywords = some kws → (∀ k ∈ kws, jsOrEmpty k = []) →
        level.winRegex = none → checkWin level R = false) := by
  constructor
  · intro kws lower
    induction kws with
    | nil => rfl
    | cons k rest ih =>
      by_cases h : jsLower (jsOrEmpty k) = []
      · simp [kwLoop, h, ih]
      · simp [kwLoop, h, ← ih]
  · intro level kws R hk hall hr
    rw [checkWin_eq_or]
    have h1 : kwHitB level R = false := by
      rw [← Bool.not_eq_true, kwHitB_iff]
      rintro ⟨k2, hk2, hne, _⟩
      rw [hk] at hk2
      exact hne (by rw [hall k2 (by simpa using hk2)]; rfl)
    have h2 : patMatches level R = false := by simp [patMatches, hr]
    simp [h1, h2]

/-- C9 witness: a level whose keyword list is `["", null]` does not win on a
non-empty reply through the keyword mechanism. -/
theorem checkWin_skips_empty_keywords_w :
    checkWin emptyKwLevel (some (strL "any reply")) = false :=
  checkWin_skips_empty_keywords.2 emptyKwLevel [some [], none] (some (strL "any reply"))
    rfl (by decide) rfl

/-! ### C4 -/

/-- C4 counterexample: the claim asserts `checkWin` returns false whenever the
reply is empty or absent, but a level declaring a pattern that matches the
empty string (such as the JS regex `a*`) wins on the empty reply. -/
theorem checkWin_empty_reply_cex : checkWin patternOnlyLevel (some []) = true := rfl

/-- C4 (amended): `checkWin` returns true iff some keyword that is non-empty
after JS string coercion and lowercasing occurs case-insensitively in the
reply, or — when no keyword matches — the level declares a pattern that
compiles and matches the reply's string coercion; the boolean result does not
depend on the order of the keyword list; and a pattern that fails to compile
behaves exactly like an absent pattern (no match, no exception).  The
original final clause is weakened: an empty or absent reply yields false only
through the keyword mechanism, a declared pattern may still match it. -/
theorem checkWin_spec (level : GameLevel) (R : Option Str) (kws2 : List (Option Str))
    (hperm : kws2.Perm (level.winKeywords.getD [])) (t : Str → Bool) :
    (checkWin level R = true ↔
      (kwMatches level R ∨ (¬kwMatches level R ∧ patMatches level R = true))) ∧
    checkWin { level with winKeywords := some kws2 } R = checkWin level R ∧
    checkWin { level with winRegex := some { compiles := false, test := t } } R =
      checkWin { level with winRegex := none } R := by
  refine ⟨?_, ?_, ?_⟩
  · rw [checkWin_eq_or, Bool.or_eq_true, kwHitB_iff]
    by_cases hk : kwMatches level R
    · simp [hk]
    · simp [hk]
  · rw [checkWin_eq_or, checkWin_eq_or]
    have hpat : patMatches { level with winKeywords := some kws2 } R = patMatches level R := rfl
    have hkw : kwHitB { level with winKeywords := some kws2 } R = kwHitB level R := by
      apply bool_eq_of_iff
      rw [kwHitB_iff, kwHitB_iff]
      unfold kwMatches
      constructor
      · rintro ⟨k, hkmem, hp⟩
        exact ⟨k, hperm.mem_iff.mp (by simpa using hkmem), hp⟩
      · rintro ⟨k, hkmem, hp⟩
        exact ⟨k, by simpa using hperm.mem_iff.mpr hkmem, hp⟩
    rw [hpat, hkw]
  · rw [checkWin_eq_or, checkWin_eq_or]
    have h1 : patMatches { level with winRegex := some { compiles := false, test := t } } R =
        false := by simp [patMatches]
    have h2 : patMatches { level with winRegex := none } R = false := rfl
    have h3 : kwHitB { level with winRegex := some { compiles := false, test := t } } R =
        kwHitB { level with winRegex := none } R := rfl
    rw [h1, h2, h3]

/-- C4 witness: a concrete two-keyword level, a permuted keyword list and a
non-compiling pattern. -/
theorem checkWin_spec_w :
    (checkWin twoKwLevel mudReply = true ↔
      (kwMatches twoKwLevel mudReply ∨
        (¬kwMatches twoKwLevel mudReply ∧ patMatches twoKwLevel mudReply = true))) ∧
    checkWin { twoKwLevel with winKeywords := some [some (strL "mud"), some (strL "bark")] }
        mudReply = checkWin twoKwLevel mudReply ∧
    checkWin { twoKwLevel with winRegex := some { compiles := false, test := fun _ => false } }
        mudReply = checkWin { twoKwLevel with winRegex := none } mudReply :=
  checkWin_spec twoKwLevel mudReply [some (strL "mud"), some (strL "bark")] (by decide)
    (fun _ => false)

/-! ### C3 -/

/-- The game-state document as read back from a store. -/
def gsRead (st : Store) : GameStateDoc := getStorage st.gameState gameStateFallback

/-- The persisted `currentLevel`. -/
def curOf (st : Store) : Nat := (gsRead st).currentLevel

/-- The persisted `completedLevels`. -/
def clOf (st : Store) : List Nat := (gsRead st).completedLevels

/-- A sequence of `recordLevelComplete` calls (each with its random session
component and its level id). -/
def runCompletions (st : Store) (ops : List (Str × Nat)) : Store :=
  ops.foldl (fun s p => recordLevelComplete s p.1 p.2) st

/-- `max(completedLevels ∪ {0})`. -/
def maxLevel (l : List Nat) : Nat := l.foldr max 0

theorem gsRead_setLeaderboard (st : Store) (l : List LBEntry) :
    gsRead (setLeaderboard st l) = gsRead st := rfl

theorem gsRead_setGameState (st : Store) (s : GameStateDoc) :
    gsRead (setGameState st s) = s := rfl

/-- The pure game-state update of `recordLevelComplete`. -/
def recordDoc (s : GameStateDoc) (levelId : Nat) : GameStateDoc :=
  { s with
    completedLevels :=
      if levelId ∈ s.completedLevels then s.completedLevels
      else s.completedLevels ++ [levelId],
    currentLevel :=
      if s.currentLevel ≤ levelId then levelId + 1 else s.currentLevel }

theorem recordDoc_sessionId (s : GameStateDoc) (levelId : Nat) :
    (recordDoc s levelId).sessionId = s.sessionId := rfl

theorem recordDoc_completedLevels (s : GameStateDoc) (levelId : Nat) :
    (recordDoc s levelId).completedLevels =
      if levelId ∈ s.completedLevels then s.completedLevels
      else s.completedLevels ++ [levelId] := rfl

theorem recordDoc_currentLevel (s : GameStateDoc) (levelId : Nat) :
    (recordDoc s levelId).currentLevel =
      if s.currentLevel ≤ levelId then levelId + 1 else s.currentLevel := rfl

theorem getGameState_setGameState (st : Store) (s : GameStateDoc) (freshId : Str)
    (hsid : jsFalsyStr s.sessionId = false) :
    getGameState (setGameState st s) freshId = (s, setGameState st s) := by
  unfold getGameState
  rw [show getStorage (setGameState st s).gameState gameStateFallback = s from rfl]
  simp [hsid]

theorem updateLeaderboardForLevel_gsRead (st : Store) (freshId : Str) (levelId : Nat) :
    gsRead (updateLeaderboardForLevel st freshId levelId) = (getGameState st freshId).1 := by
  unfold updateLeaderboardForLevel
  dsimp only
  rw [gsRead_setLeaderboard]
  exact getGameState_read st freshId

theorem recordLevelComplete_gsRead (st : Store) (freshId : Str) (levelId : Nat) :
    gsRead (recordLevelComplete st freshId levelId) =
      recordDoc (getGameState st freshId).1 levelId := by
  have hsid : jsFalsyStr (recordDoc (getGameState st freshId).1 levelId).sessionId = false := by
    rw [recordDoc_sessionId]
    exact getGameState_fst_sessionId_ok st freshId
  show gsRead
      (updateLeaderboardForLevel
        (setGameState (getGameState st freshId).2
          (recordDoc (getGameState st freshId).1 levelId)) freshId levelId) = _
  rw [updateLeaderboardForLevel_gsRead, getGameState_setGameState _ _ freshId hsid]

theorem recordLevelComplete_clOf (st : Store) (freshId : Str) (levelId : Nat) :
    clOf (recordLevelComplete st freshId levelId) =
      if levelId ∈ clOf st then clOf st else clOf st ++ [levelId] := by
  show (gsRead (recordLevelComplete st freshId levelId)).completedLevels = _
  rw [recordLevelComplete_gsRead, recordDoc_completedLevels, getGameState_fst_completedLevels]
  rfl

theorem recordLevelComplete_curOf (st : Store) (freshId : Str) (levelId : Nat) :
    curOf (recordLevelComplete st freshId levelId) =
      if curOf st ≤ levelId then levelId + 1 else curOf st := by
  show (gsRead (recordLevelComplete st freshId levelId)).currentLevel = _
  rw [recordLevelComplete_gsRead, recordDoc_currentLevel, getGameState_fst_currentLevel]
  rfl

theorem maxLevel_append_single (l : List Nat) (a : Nat) :
    maxLevel (l ++ [a]) = max (maxLevel l) a := by
  induction l with
  | nil => simp [maxLevel]
  | cons b l ih =>
    show max b (maxLevel (l ++ [a])) = max (max b (maxLevel l)) a
    rw [ih, Nat.max_assoc]

theorem le_maxLevel_of_mem {l : List Nat} {a : Nat} (h : a ∈ l) : a ≤ maxLevel l := by
  induction l with
  | nil => cases h
  | cons b l ih =>
    rcases List.mem_cons.mp h with rfl | h2
    · exact Nat.le_max_left _ _
    · exact Nat.le_trans (ih h2) (Nat.le_max_right _ _)

/-- C3: `recordLevelComplete` never decreases `currentLevel` and never
removes an element of `completedLevels`, and along any sequence of calls
starting from the initial (empty) persisted state, the invariant
`currentLevel ≥ 1 + max(completedLevels ∪ {0})` holds after every call. -/
theorem recordLevelComplete_monotone_invariant :
    (∀ (st : Store) (freshId : Str) (levelId : Nat),
        curOf st ≤ curOf (recordLevelComplete st freshId levelId) ∧
        clOf st ⊆ clOf (recordLevelComplete st freshId levelId)) ∧
    (∀ ops : List (Str × Nat),
        maxLevel (clOf (runCompletions emptyStore ops)) + 1 ≤
          curOf (runCompletions emptyStore ops)) := by
  have step : ∀ (st : Store) (freshId : Str) (levelId : Nat),
      maxLevel (clOf st) + 1 ≤ curOf st →
      maxLevel (clOf (recordLevelComplete st freshId levelId)) + 1 ≤
        curOf (recordLevelComplete st freshId levelId) := by
    intro st f L h
    rw [recordLevelComplete_clOf, recordLevelComplete_curOf]
    by_cases hmem : L ∈ clOf st <;> by_cases hcur : curOf st ≤ L
    · have hL : L ≤ maxLevel (clOf st) := le_maxLevel_of_mem hmem
      simp only [hmem, if_true, hcur]
      omega
    · simp only [hmem, if_true, hcur, if_false]
      omega
    · have hm : maxLevel (clOf st ++ [L]) = max (maxLevel (clOf st)) L :=
        maxLevel_append_single _ _
      simp only [hmem, if_false, hcur, if_true, hm]
      have h1 : max (maxLevel (clOf st)) L ≤ L := Nat.max_le.mpr ⟨by omega, Nat.le_refl L⟩
      omega
    · have hm : maxLevel (clOf st ++ [L]) = max (maxLevel (clOf st)) L :=
        maxLevel_append_single _ _
      simp only [hmem, if_false, hcur, hm]
      have h1 : max (maxLevel (clOf st)) L < curOf st := Nat.max_lt.mpr ⟨by omega, by omega⟩
      omega
  refine ⟨fun st f L => ⟨?_, ?_⟩, ?_⟩
  · rw [recordLevelComplete_curOf]
    split
    · next h => omega
    · exact Nat.le_refl _
  · rw [recordLevelComplete_clOf]
    split
    · exact fun a ha => ha
    · exact List.subset_append_left _ _
  · have run : ∀ (ops : List (Str × Nat)) (st : Store),
        maxLevel (clOf st) + 1 ≤ curOf st →
        maxLevel (clOf (runCompletions st ops)) + 1 ≤ curOf (runCompletions st ops) := by
      intro ops
      induction ops with
      | nil => exact fun st h => h
      | cons p rest ih =>
        intro st h
        exact ih (recordLevelComplete st p.1 p.2) (step st p.1 p.2 h)
    intro ops
    exact run ops emptyStore (by decide)

/-- C3 witness: a concrete three-step run. -/
theorem recordLevelComplete_monotone_invariant_w :
    (curOf emptyStore ≤ curOf (recordLevelComplete emptyStore (strL "r") 1) ∧
      clOf emptyStore ⊆ clOf (recordLevelComplete emptyStore (strL "r") 1)) ∧
    maxLevel (clOf (runCompletions emptyStore [(strL "r", 1), (strL "s", 3), (strL "t", 2)])) +
        1 ≤
      curOf (runCompletions emptyStore [(strL "r", 1), (strL "s", 3), (strL "t", 2)]) :=
  ⟨recordLevelComplete_monotone_invariant.1 emptyStore (strL "r") 1,
   recordLevelComplete_monotone_invariant.2 [(strL "r", 1), (strL "s", 3), (strL "t", 2)]⟩

/-! ### C7 -/

/-- None of `< > & " '` occurs in the string. -/
def specialsFree (s : Str) : Bool := s.all (fun c => !escapeChar c)

/-- Does `http://` or `https://` occur (case-insensitively) anywhere? -/
def hasSchemeOccur : Str → Bool
  | [] => false
  | c :: rest => schemeAt (c :: rest) || hasSchemeOccur rest

/-- The trim/strip-tags/remove-escapes pipeline shared by both sanitizers. -/
def cleanText (raw : Str) : Str := removeEscapeChars (stripTags (jsTrim raw))

theorem sanitizeAnswer_def (raw : Str) :
    sanitizeAnswer raw =
      jsTrim (if isUrlish (cleanText raw) then stripScheme (cleanText raw)
              else cleanText raw) := rfl

theorem mem_of_mem_jsTrim {c : Char} {s : Str} (h : c ∈ jsTrim s) : c ∈ s := by
  unfold jsTrim at h
  rw [List.mem_reverse] at h
  have h1 := (List.dropWhile_sublist _).subset h
  rw [List.mem_reverse] at h1
  exact (List.dropWhile_sublist _).subset h1

theorem mem_of_mem_stripScheme {c : Char} {s : Str} (h : c ∈ stripScheme s) : c ∈ s := by
  unfold stripScheme at h
  split at h
  · exact (List.drop_sublist _ _).subset h
  · split at h
    · exact (List.drop_sublist _ _).subset h
    · exact h

theorem specialsFree_cleanText (raw : Str) : specialsFree (cleanText raw) = true := by
  rw [specialsFree, List.all_eq_true]
  intro c hc
  exact (List.mem_filter.mp hc).2

theorem stripTagsGo_no_lt (fuel : Nat) (s : Str) (h : ¬ '<' ∈ s) :
    stripTagsGo fuel s = s := by
  induction fuel generalizing s with
  | zero => cases s <;> rfl
  | succ n ih =>
    cases s with
    | nil => rfl
    | cons c rest =>
      have hc : ¬ c = '<' := by
        intro e
        exact h (e ▸ List.mem_cons_self c rest)
      have hrest : ¬ '<' ∈ rest := fun hm => h (List.mem_cons_of_mem c hm)
      simp [stripTagsGo, hc, ih rest hrest]

theorem stripTags_no_lt {s : Str} (h : ¬ '<' ∈ s) : stripTags s = s :=
  stripTagsGo_no_lt s.length s h

/-- C7 counterexample: the claim asserts the output of `sanitizeAnswer`
contains no `http://` anywhere, but the scheme replacement is anchored to the
start of the string, so a scheme embedded after other text survives. -/
theorem sanitizeAnswer_scheme_cex :
    sanitizeAnswer (strL "a http://b.com") = strL "a http://b.com" ∧
    hasSchemeOccur (sanitizeAnswer (strL "a http://b.com")) = true :=
  ⟨by decide, by decide⟩

/-- C7 (amended): for every raw string the output of `sanitizeAnswer` is
tag-free (stripping tags again changes nothing) and contains none of the
characters `< > & " '`; for URL-like inputs only a scheme prefix at the very
start of the cleaned text is removed (the output is a trim of a suffix of the
cleaned text), so `"timber.com"` is not reduced to `"timber"`; and the output
may be empty.  The original "contains no http:// or https:// anywhere" clause
is weakened to this prefix-only guarantee: an embedded scheme after other
text survives. -/
theorem sanitizeAnswer_spec (raw : Str) :
    specialsFree (sanitizeAnswer raw) = true ∧
    stripTags (sanitizeAnswer raw) = sanitizeAnswer raw ∧
    (∃ t, List.IsSuffix t (cleanText raw) ∧ sanitizeAnswer raw = jsTrim t) ∧
    sanitizeAnswer (strL "timber.com") = strL "timber.com" ∧
    sanitizeAnswer (strL "") = [] := by
  have hmem : ∀ c ∈ sanitizeAnswer raw, c ∈ cleanText raw := by
    intro c hc
    rw [sanitizeAnswer_def] at hc
    have h1 := mem_of_mem_jsTrim hc
    by_cases hu : isUrlish (cleanText raw) = true
    · rw [if_pos hu] at h1
      exact mem_of_mem_stripScheme h1
    · rw [if_neg hu] at h1
      exact h1
  have hfree : specialsFree (sanitizeAnswer raw) = true := by
    rw [specialsFree, List.all_eq_true]
    intro c hc
    have := specialsFree_cleanText raw
    rw [specialsFree, List.all_eq_true] at this
    exact this c (hmem c hc)
  refine ⟨hfree, ?_, ?_, by decide, by decide⟩
  · apply stripTags_no_lt
    intro hlt
    rw [specialsFree, List.all_eq_true] at hfree
    have := hfree '<' hlt
    simp [escapeChar] at this
  · refine ⟨if isUrlish (cleanText raw) then stripScheme (cleanText raw) else cleanText raw,
      ?_, sanitizeAnswer_def raw⟩
    by_cases hu : isUrlish (cleanText raw) = true
    · rw [if_pos hu]
      unfold stripScheme
      split
      · exact List.drop_suffix _ _
      · split
        · exact List.drop_suffix _ _
        · exact List.suffix_refl _
    · rw [if_neg hu]

/-! ### C10 supporting lemmas: whitespace and trimming -/

theorem isWs_cases {c : Char} (h : isWs c = true) :
    c = ' ' ∨ c = '\t' ∨ c = '\r' ∨ c = '\n' := by
  have h2 := h
  simp [isWs, Char.isWhitespace] at h2
  tauto

theorem jsLowerChar_ws {c : Char} (h : isWs c = true) : jsLowerChar c = c := by
  rcases isWs_cases h with rfl | rfl | rfl | rfl <;> decide

theorem isWordChar_ws {c : Char} (h : isWs c = true) : isWordChar c = false := by
  rcases isWs_cases h with rfl | rfl | rfl | rfl <;> decide

theorem jsLowerChar_eq_slash {c : Char} (h : jsLowerChar c = '/') : c = '/' := by
  unfold jsLowerChar Char.toLower at h
  dsimp only at h
  split at h
  · exfalso
    next hc =>
      obtain ⟨h1, h2⟩ := hc
      interval_cases hn : c.toNat <;> exact absurd h (by decide)
  · exact h

theorem noWsHead_dropWhile (s : Str) :
    ∀ c, (s.dropWhile isWs).head? = some c → isWs c = false := by
  induction s with
  | nil => intro c h; simp at h
  | cons a rest ih =>
    intro c h
    by_cases ha : isWs a = true
    · rw [List.dropWhile_cons, if_pos ha] at h
      exact ih c h
    · rw [List.dropWhile_cons, if_neg ha] at h
      obtain rfl : a = c := by simpa using h
      simpa using ha

theorem dropWhile_eq_self_of_head (s : Str)
    (h : ∀ c, s.head? = some c → isWs c = false) : s.dropWhile isWs = s := by
  cases s with
  | nil => rfl
  | cons a rest =>
    have ha := h a rfl
    rw [List.dropWhile_cons, if_neg (by simp [ha])]

theorem head?_of_isPre {l1 l2 : Str} (h : List.IsPrefix l1 l2) (hne : l1 ≠ []) :
    l2.head? = l1.head? := by
  obtain ⟨t, rfl⟩ := h
  cases l1 with
  | nil => exact absurd rfl hne
  | cons a r => rfl

theorem jsTrim_isPre_dropWhile (s : Str) :
    List.IsPrefix (jsTrim s) (s.dropWhile isWs) := by
  have h1 : List.IsSuffix ((s.dropWhile isWs).reverse.dropWhile isWs)
      ((s.dropWhile isWs).reverse) := List.dropWhile_suffix _
  have h2 := List.reverse_prefix.mpr h1
  rwa [List.reverse_reverse] at h2

theorem jsTrim_head (s : Str) : ∀ c, (jsTrim s).head? = some c → isWs c = false := by
  intro c h
  have hne : jsTrim s ≠ [] := by
    intro e
    rw [e] at h
    simp at h
  have heq := head?_of_isPre (jsTrim_isPre_dropWhile s) hne
  exact noWsHead_dropWhile s c (by rw [heq, h])

theorem jsTrim_reverse_head (s : Str) :
    ∀ c, (jsTrim s).reverse.head? = some c → isWs c = false := by
  intro c h
  rw [show (jsTrim s).reverse = (s.dropWhile isWs).reverse.dropWhile isWs by
    unfold jsTrim; rw [List.reverse_reverse]] at h
  exact noWsHead_dropWhile _ c h

theorem jsTrim_of_clean (s : Str)
    (h1 : ∀ c, s.head? = some c → isWs c = false)
    (h2 : ∀ c, s.reverse.head? = some c → isWs c = false) : jsTrim s = s := by
  unfold jsTrim
  rw [dropWhile_eq_self_of_head s h1, dropWhile_eq_self_of_head s.reverse h2,
    List.reverse_reverse]

theorem jsTrim_idem (s : Str) : jsTrim (jsTrim s) = jsTrim s :=
  jsTrim_of_clean _ (jsTrim_head s) (jsTrim_reverse_head s)

theorem jsTrim_decomp (s : Str) :
    ∃ lead tail, (∀ c ∈ lead, isWs c = true) ∧ (∀ c ∈ tail, isWs c = true) ∧
      s = lead ++ jsTrim s ++ tail := by
  refine ⟨s.takeWhile isWs, ((s.dropWhile isWs).reverse.takeWhile isWs).reverse,
    fun c hc => List.mem_takeWhile_imp hc, ?_, ?_⟩
  · intro c hc
    rw [List.mem_reverse] at hc
    exact List.mem_takeWhile_imp hc
  · have hA : (s.dropWhile isWs).reverse.takeWhile isWs ++
        (s.dropWhile isWs).reverse.dropWhile isWs = (s.dropWhile isWs).reverse :=
      List.takeWhile_append_dropWhile isWs _
    have h2 := congrArg List.reverse hA
    rw [List.reverse_append, List.reverse_reverse] at h2
    conv_lhs => rw [← List.takeWhile_append_dropWhile isWs s, ← h2]
    rw [List.append_assoc]
    rfl

/-! ### C10 supporting lemmas: scanner characterizations -/

/-- The boundary state at the end of `pre` when the scan started with
predecessor `prev`. -/
def lastBoundaryOK (prev : Option Char) (pre : Str) : Bool :=
  match pre.getLast? with
  | none => boundaryOK prev
  | some p => !isWordChar p

/-- Is the character before the current position a word character, `pre`
having been scanned already? -/
def lastIsWord (prev : Option Char) (pre : Str) : Bool :=
  match pre.getLast? with
  | none => prevIsWord prev
  | some p => isWordChar p

theorem lastBoundaryOK_cons (prev : Option Char) (c : Char) (pre : Str) :
    lastBoundaryOK prev (c :: pre) = lastBoundaryOK (some c) pre := by
  unfold lastBoundaryOK
  cases pre with
  | nil => simp [List.getLast?_singleton, boundaryOK]
  | cons d rest =>
    rw [List.getLast?_cons_cons]
    cases hgl : (d :: rest).getLast? with
    | none => simp at hgl
    | some p => rfl

theorem lastIsWord_cons (prev : Option Char) (c : Char) (pre : Str) :
    lastIsWord prev (c :: pre) = lastIsWord (some c) pre := by
  unfold lastIsWord
  cases pre with
  | nil => simp [List.getLast?_singleton, prevIsWord]
  | cons d rest =>
    rw [List.getLast?_cons_cons]
    cases hgl : (d :: rest).getLast? with
    | none => simp at hgl
    | some p => rfl

theorem lastBoundaryOK_append (prev : Option Char) (l1 l2 : Str) (h2 : l2 ≠ []) :
    lastBoundaryOK prev (l1 ++ l2) = lastBoundaryOK prev l2 := by
  unfold lastBoundaryOK
  rw [List.getLast?_append_of_ne_nil l1 h2]

theorem lastIsWord_append (prev : Option Char) (l1 l2 : Str) (h2 : l2 ≠ []) :
    lastIsWord prev (l1 ++ l2) = lastIsWord prev l2 := by
  unfold lastIsWord
  rw [List.getLast?_append_of_ne_nil l1 h2]

theorem lastBoundaryOK_allWs (l : Str) (hl : ∀ c ∈ l, isWs c = true) :
    lastBoundaryOK none l = true := by
  unfold lastBoundaryOK
  cases hgl : l.getLast? with
  | none => rfl
  | some w =>
    have hw := isWordChar_ws (hl w (List.mem_of_mem_getLast? hgl))
    simp [hw]

theorem schemeScan_iff (s : Str) : ∀ prev : Option Char,
    schemeScan prev s = true ↔
      ∃ pre suf, s = pre ++ suf ∧ lastBoundaryOK prev pre = true ∧ schemeAt suf = true := by
  induction s with
  | nil =>
    intro prev
    constructor
    · intro h
      exact absurd h (by simp [schemeScan])
    · rintro ⟨pre, suf, hs, hb, ha⟩
      rcases List.append_eq_nil.mp hs.symm with ⟨rfl, rfl⟩
      exact absurd ha (by decide)
  | cons c rest ih =>
    intro prev
    simp only [schemeScan, Bool.or_eq_true, Bool.and_eq_true]
    constructor
    · rintro (⟨hb, ha⟩ | h2)
      · exact ⟨[], c :: rest, rfl, by simpa [lastBoundaryOK] using hb, ha⟩
      · obtain ⟨pre, suf, hs, hb, ha⟩ := (ih (some c)).mp h2
        exact ⟨c :: pre, suf, by rw [List.cons_append, hs],
          by rwa [lastBoundaryOK_cons], ha⟩
    · rintro ⟨pre, suf, hs, hb, ha⟩
      cases pre with
      | nil =>
        left
        refine ⟨by simpa [lastBoundaryOK] using hb, ?_⟩
        rw [List.nil_append] at hs
        rwa [hs]
      | cons p pre2 =>
        right
        apply (ih (some c)).mpr
        rw [List.cons_append] at hs
        injection hs with h1 h2
        subst h1
        exact ⟨pre2, suf, h2, by rwa [lastBoundaryOK_cons] at hb, ha⟩

theorem tldScan_iff (s : Str) : ∀ prev : Option Char,
    tldScan prev s = true ↔
      ∃ pre suf, s = pre ++ '.' :: suf ∧ lastIsWord prev pre = true ∧
        tldAfterDot suf = true := by
  induction s with
  | nil =>
    intro prev
    constructor
    · intro h
      exact absurd h (by simp [tldScan])
    · rintro ⟨pre, suf, hs, hb, ha⟩
      rcases List.append_eq_nil.mp hs.symm with ⟨rfl, h2⟩
      exact absurd h2 (by simp)
  | cons c rest ih =>
    intro prev
    simp only [tldScan, Bool.or_eq_true, Bool.and_eq_true]
    constructor
    · rintro (⟨⟨hc, hw⟩, ha⟩ | h2)
      · obtain rfl : c = '.' := by simpa using hc
        exact ⟨[], rest, rfl, by simpa [lastIsWord] using hw, ha⟩
      · obtain ⟨pre, suf, hs, hb, ha⟩ := (ih (some c)).mp h2
        exact ⟨c :: pre, suf, by rw [List.cons_append, hs],
          by rwa [lastIsWord_cons], ha⟩
    · rintro ⟨pre, suf, hs, hb, ha⟩
      cases pre with
      | nil =>
        left
        rw [List.nil_append] at hs
        injection hs with h1 h2
        subst h2
        exact ⟨⟨by simp [h1], by simpa [lastIsWord] using hb⟩, ha⟩
      | cons p pre2 =>
        right
        apply (ih (some c)).mpr
        rw [List.cons_append] at hs
        injection hs with h1 h2
        subst h1
        exact ⟨pre2, suf, h2, by rwa [lastIsWord_cons] at hb, ha⟩

/-! ### C10 supporting lemmas: padding and membership -/

theorem leadsWithCI_mono (pat : Str) : ∀ x t : Str,
    leadsWithCI pat x = true → leadsWithCI pat (x ++ t) = true := by
  induction pat with
  | nil => intro x t _; rfl
  | cons p ps ih =>
    intro x t h
    cases x with
    | nil => exact absurd h (by simp [leadsWithCI])
    | cons c cs =>
      rw [List.cons_append]
      simp only [leadsWithCI, Bool.and_eq_true] at h ⊢
      exact ⟨h.1, ih cs t h.2⟩

theorem schemeAt_mono (x t : Str) (h : schemeAt x = true) : schemeAt (x ++ t) = true := by
  unfold schemeAt at h ⊢
  simp only [Bool.or_eq_true] at h ⊢
  rcases h with h | h
  · exact Or.inl (leadsWithCI_mono _ x t h)
  · exact Or.inr (leadsWithCI_mono _ x t h)

theorem tldAfterDot_append_ws (suf t : Str) (ht : ∀ c ∈ t, isWs c = true)
    (h : tldAfterDot suf = true) : tldAfterDot (suf ++ t) = true := by
  match suf with
  | [] => exact Bool.noConfusion h
  | [a] => exact Bool.noConfusion h
  | [a, b] => exact Bool.noConfusion h
  | a :: b :: c :: rest =>
    cases rest with
    | nil =>
      have h1 : tldTriple a b c = true := by
        have h2 : (tldTriple a b c && true) = true := h
        simpa using h2
      cases t with
      | nil => simpa using h
      | cons d t2 =>
        have hd : isWordChar d = false := isWordChar_ws (ht d (List.mem_cons_self d t2))
        show (tldTriple a b c && !isWordChar d) = true
        rw [h1, hd]
        rfl
    | cons e r2 => exact h

theorem isUrlish_padded (lead m t : Str) (hlead : ∀ c ∈ lead, isWs c = true)
    (ht : ∀ c ∈ t, isWs c = true) (h : isUrlish m = true) :
    isUrlish (lead ++ m ++ t) = true := by
  unfold isUrlish at h ⊢
  simp only [Bool.or_eq_true] at h ⊢
  rcases h with h | h
  · left
    obtain ⟨pre, suf, hs, hb, ha⟩ := (schemeScan_iff m none).mp h
    apply (schemeScan_iff _ none).mpr
    refine ⟨lead ++ pre, suf ++ t, ?_, ?_, schemeAt_mono suf t ha⟩
    · rw [hs]
      simp [List.append_assoc]
    · by_cases hpre : pre = []
      · subst hpre
        rw [List.append_nil]
        exact lastBoundaryOK_allWs lead hlead
      · rw [lastBoundaryOK_append none lead pre hpre]
        exact hb
  · right
    obtain ⟨pre, suf, hs, hb, ha⟩ := (tldScan_iff m none).mp h
    apply (tldScan_iff _ none).mpr
    refine ⟨lead ++ pre, suf ++ t, ?_, ?_, tldAfterDot_append_ws suf t ht ha⟩
    · rw [hs]
      simp [List.append_assoc]
    · have hpre : pre ≠ [] := by
        intro e
        subst e
        simp [lastIsWord, prevIsWord] at hb
      rw [lastIsWord_append none lead pre hpre]
      exact hb

theorem leadsWithCI_exists_mem (pat : Str) : ∀ s : Str, leadsWithCI pat s = true →
    ∀ p ∈ pat, ∃ c ∈ s, jsLowerChar c = p := by
  induction pat with
  | nil =>
    intro s h p hp
    simp at hp
  | cons q ps ih =>
    intro s h p hp
    cases s with
    | nil => exact absurd h (by simp [leadsWithCI])
    | cons c cs =>
      simp only [leadsWithCI, Bool.and_eq_true] at h
      rcases List.mem_cons.mp hp with rfl | hp2
      · exact ⟨c, List.mem_cons_self c cs, by simpa using h.1⟩
      · obtain ⟨c2, hc2, he⟩ := ih cs h.2 p hp2
        exact ⟨c2, List.mem_cons_of_mem c hc2, he⟩

theorem schemeAt_slash {s : Str} (h : schemeAt s = true) : '/' ∈ s := by
  unfold schemeAt at h
  simp only [Bool.or_eq_true] at h
  have key : ∃ c ∈ s, jsLowerChar c = '/' := by
    rcases h with h | h
    · exact leadsWithCI_exists_mem _ s h '/' (by decide)
    · exact leadsWithCI_exists_mem _ s h '/' (by decide)
  obtain ⟨c, hc, he⟩ := key
  rwa [jsLowerChar_eq_slash he] at hc

theorem isUrlish_false_no_slash_dot (s : Str) (h1 : ¬ '/' ∈ s) (h2 : ¬ '.' ∈ s) :
    isUrlish s = false := by
  unfold isUrlish
  rw [Bool.or_eq_false_iff]
  constructor
  · cases hs : schemeScan none s with
    | false => rfl
    | true =>
      obtain ⟨pre, suf, he, hb, ha⟩ := (schemeScan_iff s none).mp hs
      exact absurd (he ▸ List.mem_append.mpr (Or.inr (schemeAt_slash ha))) h1
  · cases hs : tldScan none s with
    | false => rfl
    | true =>
      obtain ⟨pre, suf, he, hb, ha⟩ := (tldScan_iff s none).mp hs
      exact absurd (he ▸ List.mem_append.mpr (Or.inr (List.mem_cons_self _ _))) h2

theorem specialsFree_mem {s : Str} (h : specialsFree s = true) {c : Char} (hc : c ∈ s) :
    escapeChar c = false := by
  rw [specialsFree, List.all_eq_true] at h
  simpa using h c hc

theorem removeEscapeChars_of_specialsFree {s : Str} (h : specialsFree s = true) :
    removeEscapeChars s = s := by
  apply List.filter_eq_self.mpr
  rw [specialsFree, List.all_eq_true] at h
  exact h

theorem stripTags_of_specialsFree {s : Str} (h : specialsFree s = true) :
    stripTags s = s := by
  apply stripTags_no_lt
  intro hm
  exact absurd (specialsFree_mem h hm) (by decide)

/-- An output shape of `sanitizeUsername` is a fixed point of it. -/
theorem sanitizeUsername_fixed (u : Str) (h1 : specialsFree u = true) (h2 : jsTrim u = u)
    (h3 : isUrlish u = false) (h4 : u ≠ []) : sanitizeUsername u = u := by
  unfold sanitizeUsername
  dsimp only
  rw [h2, stripTags_of_specialsFree h1, removeEscapeChars_of_specialsFree h1, h3]
  simp [h2, h4]

/-- Every output of `sanitizeUsername` satisfies the fixed-point conditions. -/
theorem sanitizeUsername_result (raw : Str) :
    ∃ u, sanitizeUsername raw = u ∧ specialsFree u = true ∧ jsTrim u = u ∧
      isUrlish u = false ∧ u ≠ [] := by
  have hrfree : specialsFree (removeEscapeChars (stripTags (jsTrim raw))) = true :=
    specialsFree_cleanText raw
  unfold sanitizeUsername
  dsimp only
  by_cases hu : isUrlish (removeEscapeChars (stripTags (jsTrim raw))) = true
  · rw [if_pos hu]
    by_cases hseg : ((removeEscapeChars (stripTags (jsTrim raw))).takeWhile
        (fun c => !(c = '/' || c = '?' || c = '#'))).takeWhile (fun c => !(c = '.')) = []
    · rw [if_pos hseg, show jsTrim playerName = playerName by decide,
        if_neg (show ¬ playerName = [] by decide)]
      exact ⟨playerName, rfl, by decide, by decide, by decide, by decide⟩
    · rw [if_neg hseg]
      by_cases htr : jsTrim (((removeEscapeChars (stripTags (jsTrim raw))).takeWhile
          (fun c => !(c = '/' || c = '?' || c = '#'))).takeWhile (fun c => !(c = '.'))) = []
      · rw [if_pos htr]
        exact ⟨playerName, rfl, by decide, by decide, by decide, by decide⟩
      · rw [if_neg htr]
        refine ⟨_, rfl, ?_, jsTrim_idem _, ?_, htr⟩
        · rw [specialsFree, List.all_eq_true]
          intro c hc
          have hm : c ∈ removeEscapeChars (stripTags (jsTrim raw)) :=
            (List.takeWhile_sublist _).subset
              ((List.takeWhile_sublist _).subset (mem_of_mem_jsTrim hc))
          have he := specialsFree_mem hrfree hm
          simp [he]
        · apply isUrlish_false_no_slash_dot
          · intro hm
            have h2 := (List.takeWhile_sublist _).subset (mem_of_mem_jsTrim hm)
            exact absurd (List.mem_takeWhile_imp h2) (by decide)
          · intro hm
            exact absurd (List.mem_takeWhile_imp (mem_of_mem_jsTrim hm)) (by decide)
  · rw [if_neg hu]
    by_cases htr : jsTrim (removeEscapeChars (stripTags (jsTrim raw))) = []
    · rw [if_pos htr]
      exact ⟨playerName, rfl, by decide, by decide, by decide, by decide⟩
    · rw [if_neg htr]
      refine ⟨_, rfl, ?_, jsTrim_idem _, ?_, htr⟩
      · rw [specialsFree, List.all_eq_true]
        intro c hc
        have he := specialsFree_mem hrfree (mem_of_mem_jsTrim hc)
        simp [he]
      · cases hres : isUrlish (jsTrim (removeEscapeChars (stripTags (jsTrim raw)))) with
        | false => rfl
        | true =>
          exfalso
          obtain ⟨lead, tail, hl, htl, hdec⟩ :=
            jsTrim_decomp (removeEscapeChars (stripTags (jsTrim raw)))
          have hpad := isUrlish_padded lead _ tail hl htl hres
          rw [← hdec] at hpad
          exact hu hpad

/-- C10: `sanitizeUsername` is idempotent — every output (trimmed, tag- and
special-character-free, URL-collapsed or the default `"Player"`) is a fixed
point of the sanitizer. -/
theorem sanitizeUsername_idem (raw : Str) :
    sanitizeUsername (sanitizeUsername raw) = sanitizeUsername raw := by
  obtain ⟨u, he, f1, f2, f3, f4⟩ := sanitizeUsername_result raw
  rw [he]
  exact sanitizeUsername_fixed u f1 f2 f3 f4

/-! ### C1 supporting lemmas -/

/-- Leaderboard states reachable from the empty leaderboard by any sequence
of completion events (each event carrying whatever username and session id
the ui session and game state held at that moment). -/
inductive LBReach : List LBEntry → Prop where
  | nil : LBReach []
  | step (username : Str) (sid : Option Str) (levelId : Nat) {lb : List LBEntry} :
      LBReach lb → LBReach (updateLBCore username sid levelId lb)

/-- The per-entry part of the leaderboard invariant. -/
def entryWF (e : LBEntry) : Prop :=
  ∃ cl, e.completedLevels = some cl ∧ cl.Nodup ∧ e.score = cl.length

theorem refreshEntry_username (sid : Option Str) (levelId : Nat) (e : LBEntry) :
    (refreshEntry sid levelId e).username = e.username := rfl

theorem updateFirst_map_username (u : Str) (f : LBEntry → LBEntry)
    (hf : ∀ e, (f e).username = e.username) :
    ∀ l : List LBEntry,
      (updateFirst u f l).map (fun e => e.username) = l.map (fun e => e.username) := by
  intro l
  induction l with
  | nil => rfl
  | cons e rest ih =>
    unfold updateFirst
    split
    · simp [hf e]
    · simp [ih]

theorem updateFirst_cons (u : Str) (f : LBEntry → LBEntry) (a : LBEntry)
    (rest : List LBEntry) :
    updateFirst u f (a :: rest) =
      if a.username = u then f a :: rest else a :: updateFirst u f rest := rfl

theorem mem_updateFirst (u : Str) (f : LBEntry → LBEntry) :
    ∀ (l : List LBEntry) (e : LBEntry), e ∈ updateFirst u f l →
      e ∈ l ∨ ∃ e0, e0 ∈ l ∧ e = f e0 := by
  intro l
  induction l with
  | nil => intro e h; exact absurd h (by simp [updateFirst])
  | cons a rest ih =>
    intro e h
    by_cases hau : a.username = u
    · rw [updateFirst_cons, if_pos hau] at h
      rcases List.mem_cons.mp h with rfl | h2
      · exact Or.inr ⟨a, List.mem_cons_self a rest, rfl⟩
      · exact Or.inl (List.mem_cons_of_mem a h2)
    · rw [updateFirst_cons, if_neg hau] at h
      rcases List.mem_cons.mp h with rfl | h2
      · exact Or.inl (List.mem_cons_self e rest)
      · rcases ih e h2 with h3 | ⟨e0, he0, hfe⟩
        · exact Or.inl (List.mem_cons_of_mem a h3)
        · exact Or.inr ⟨e0, List.mem_cons_of_mem a he0, hfe⟩

theorem refreshEntry_wf (sid : Option Str) (levelId : Nat) (e : LBEntry)
    (h : entryWF e) : entryWF (refreshEntry sid levelId e) := by
  obtain ⟨cl, hcl, hnd, hsc⟩ := h
  unfold refreshEntry entryWF
  rw [hcl]
  by_cases hmem : levelId ∈ cl
  · exact ⟨cl, by simp [hmem], hnd, by simp [hmem]⟩
  · refine ⟨sortLevelsAsc (cl ++ [levelId]), by simp [hmem], ?_, by simp [hmem]⟩
    have hperm : List.Perm (sortLevelsAsc (cl ++ [levelId])) (cl ++ [levelId]) :=
      List.perm_insertionSort _ _
    apply hperm.nodup_iff.mpr
    rw [List.nodup_append]
    exact ⟨hnd, List.nodup_singleton _, by simpa using hmem⟩

theorem freshEntry_wf (sid : Option Str) (u : Str) (levelId : Nat) :
    entryWF (freshEntry sid u levelId) :=
  ⟨[levelId], rfl, List.nodup_singleton _, rfl⟩

theorem updateEntries_wf (u : Str) (sid : Option Str) (levelId : Nat)
    (entries : List LBEntry) (h : ∀ e ∈ entries, entryWF e) :
    ∀ e ∈ updateEntries u sid levelId entries, entryWF e := by
  intro e he
  unfold updateEntries at he
  split at he
  · rcases mem_updateFirst u _ entries e he with h2 | ⟨e0, he0, rfl⟩
    · exact h e h2
    · exact refreshEntry_wf sid levelId e0 (h e0 he0)
  · rcases List.mem_append.mp he with h2 | h2
    · exact h e h2
    · rw [List.mem_singleton.mp h2]
      exact freshEntry_wf sid u levelId

theorem updateEntries_usernames_nodup (u : Str) (sid : Option Str) (levelId : Nat)
    (entries : List LBEntry) (h : (entries.map (fun e => e.username)).Nodup) :
    ((updateEntries u sid levelId entries).map (fun e => e.username)).Nodup := by
  unfold updateEntries
  split
  · rw [updateFirst_map_username u (refreshEntry sid levelId) (fun e => rfl) entries]
    exact h
  · next hany =>
    have hnot : ¬ u ∈ entries.map (fun e => e.username) := by
      intro hm
      obtain ⟨e, he, hue⟩ := List.mem_map.mp hm
      exact hany (List.any_eq_true.mpr ⟨e, he, by simp [hue]⟩)
    rw [List.map_append, List.nodup_append]
    exact ⟨h, List.nodup_singleton _, by simpa using hnot⟩

theorem updateLBCore_wf (u : Str) (sid : Option Str) (levelId : Nat)
    (lb : List LBEntry)
    (hnd : (lb.map (fun e => e.username)).Nodup)
    (hwf : ∀ e ∈ lb, entryWF e) :
    ((updateLBCore u sid levelId lb).map (fun e => e.username)).Nodup ∧
      (updateLBCore u sid levelId lb).length ≤ 100 ∧
      List.Pairwise scoreRel (updateLBCore u sid levelId lb) ∧
      ∀ e ∈ updateLBCore u sid levelId lb, entryWF e := by
  have hperm : List.Perm (sortByScoreDesc (updateEntries u sid levelId lb))
      (updateEntries u sid levelId lb) := List.perm_insertionSort _ _
  refine ⟨?_, ?_, ?_, ?_⟩
  · have h1 := updateEntries_usernames_nodup u sid levelId lb hnd
    have h2 : ((sortByScoreDesc (updateEntries u sid levelId lb)).map
        (fun e => e.username)).Nodup := ((hperm.map _).nodup_iff).mpr h1
    unfold updateLBCore
    rw [List.map_take]
    exact h2.sublist (List.take_sublist _ _)
  · exact List.length_take_le _ _
  · have hs : List.Sorted scoreRel (sortByScoreDesc (updateEntries u sid levelId lb)) :=
      List.sorted_insertionSort scoreRel _
    unfold updateLBCore
    exact hs.sublist (List.take_sublist _ _)
  · intro e he
    have h2 : e ∈ sortByScoreDesc (updateEntries u sid levelId lb) :=
      (List.take_sublist _ _).subset he
    exact updateEntries_wf u sid levelId lb hwf e (hperm.subset h2)

theorem getLeaderboard_getGameState_snd (st : Store) (freshId : Str) :
    getLeaderboard (getGameState st freshId).2 = getLeaderboard st := by
  unfold getLeaderboard
  rw [getGameState_snd_leaderboard]

theorem getUiSession_getGameState_snd (st : Store) (freshId : Str) :
    getUiSession (getGameState st freshId).2 = getUiSession st := by
  unfold getUiSession
  rw [getGameState_snd_uiSession]

theorem getLeaderboard_updateLeaderboardForLevel (st : Store) (freshId : Str)
    (levelId : Nat) :
    getLeaderboard (updateLeaderboardForLevel st freshId levelId) =
      updateLBCore (jsOrPlayer (getUiSession st).username)
        (getGameState st freshId).1.sessionId levelId (getLeaderboard st) := by
  unfold updateLeaderboardForLevel
  dsimp only
  rw [show ∀ (x : Store) (l : List LBEntry), getLeaderboard (setLeaderboard x l) = l
      from fun x l => rfl]
  rw [getLeaderboard_getGameState_snd]

theorem getLeaderboard_recordLevelComplete (st : Store) (freshId : Str) (levelId : Nat) :
    getLeaderboard (recordLevelComplete st freshId levelId) =
      updateLBCore (jsOrPlayer (getUiSession st).username)
        (getGameState st freshId).1.sessionId levelId (getLeaderboard st) := by
  have hsid : jsFalsyStr
      (recordDoc (getGameState st freshId).1 levelId).sessionId = false := by
    rw [recordDoc_sessionId]
    exact getGameState_fst_sessionId_ok st freshId
  show getLeaderboard
      (updateLeaderboardForLevel
        (setGameState (getGameState st freshId).2
          (recordDoc (getGameState st freshId).1 levelId)) freshId levelId) = _
  rw [getLeaderboard_updateLeaderboardForLevel]
  rw [getGameState_setGameState _ _ freshId hsid]
  rw [show getUiSession
      (setGameState (getGameState st freshId).2
        (recordDoc (getGameState st freshId).1 levelId)) =
      getUiSession (getGameState st freshId).2 from rfl]
  rw [getUiSession_getGameState_snd]
  rw [show getLeaderboard
      (setGameState (getGameState st freshId).2
        (recordDoc (getGameState st freshId).1 levelId)) =
      getLeaderboard (getGameState st freshId).2 from rfl]
  rw [getLeaderboard_getGameState_snd, recordDoc_sessionId]

/-! ### C1 -/

/-- C1: every leaderboard reachable from the empty one by completion events
has at most one entry per username, at most 100 entries, is sorted by score
descending, and every entry's score is the size of its `completedLevels`
set (which is present and duplicate-free); moreover both
`updateLeaderboardForLevel` and `recordLevelComplete` step the persisted
leaderboard exactly by `updateLBCore`, so the store-level operations realise
exactly the `LBReach` steps. -/
theorem leaderboard_invariant :
    (∀ lb : List LBEntry, LBReach lb →
        (lb.map (fun e => e.username)).Nodup ∧ lb.length ≤ 100 ∧
        List.Pairwise scoreRel lb ∧
        ∀ e ∈ lb, ∃ cl, e.completedLevels = some cl ∧ cl.Nodup ∧ e.score = cl.length) ∧
    (∀ (st : Store) (freshId : Str) (levelId : Nat),
        getLeaderboard (updateLeaderboardForLevel st freshId levelId) =
          updateLBCore (jsOrPlayer (getUiSession st).username)
            (getGameState st freshId).1.sessionId levelId (getLeaderboard st) ∧
        getLeaderboard (recordLevelComplete st freshId levelId) =
          updateLBCore (jsOrPlayer (getUiSession st).username)
            (getGameState st freshId).1.sessionId levelId (getLeaderboard st)) := by
  constructor
  · intro lb h
    induction h with
    | nil => exact ⟨List.nodup_nil, by simp, List.Pairwise.nil, by simp⟩
    | step u sid L h2 ih =>
      obtain ⟨ihnd, _, _, ihwf⟩ := ih
      obtain ⟨h1, h2, h3, h4⟩ := updateLBCore_wf u sid L _ ihnd (fun e he => ihwf e he)
      exact ⟨h1, h2, h3, fun e he => h4 e he⟩
  · intro st freshId levelId
    exact ⟨getLeaderboard_updateLeaderboardForLevel st freshId levelId,
      getLeaderboard_recordLevelComplete st freshId levelId⟩

/-- C1 witness: the invariant at a concrete one-step reachable leaderboard. -/
theorem leaderboard_invariant_w :
    ((updateLBCore (strL "A") (some (strL "s")) 3 []).map (fun e => e.username)).Nodup ∧
    (updateLBCore (strL "A") (some (strL "s")) 3 []).length ≤ 100 ∧
    List.Pairwise scoreRel (updateLBCore (strL "A") (some (strL "s")) 3 []) ∧
    ∀ e ∈ updateLBCore (strL "A") (some (strL "s")) 3 [],
      ∃ cl, e.completedLevels = some cl ∧ cl.Nodup ∧ e.score = cl.length :=
  leaderboard_invariant.1 (updateLBCore (strL "A") (some (strL "s")) 3 [])
    (LBReach.step (strL "A") (some (strL "s")) 3 LBReach.nil)

/-! ### C2 supporting lemmas -/

/-- The shape of the entry `updateLeaderboardForLevel` leaves for the current
username: `completedLevels` present and containing the level, `score` equal
to its length, `sessionId` refreshed. -/
def entryRec (sid : Option Str) (levelId : Nat) (e : LBEntry) : Prop :=
  ∃ cl, e.completedLevels = some cl ∧ levelId ∈ cl ∧ e.score = cl.length ∧
    e.sessionId = sid

theorem refreshEntry_rec (sid : Option Str) (levelId : Nat) (e : LBEntry) :
    entryRec sid levelId (refreshEntry sid levelId e) := by
  unfold refreshEntry entryRec
  dsimp only
  by_cases hm : levelId ∈ e.completedLevels.getD []
  · exact ⟨_, rfl, by simp [hm], rfl, rfl⟩
  · refine ⟨_, rfl, ?_, rfl, rfl⟩
    rw [if_neg hm]
    exact (List.perm_insertionSort _ _).mem_iff.mpr
      (List.mem_append.mpr (Or.inr (List.mem_singleton.mpr rfl)))

theorem freshEntry_rec (sid : Option Str) (u : Str) (levelId : Nat) :
    entryRec sid levelId (freshEntry sid u levelId) :=
  ⟨[levelId], rfl, List.mem_singleton.mpr rfl, rfl, rfl⟩

theorem entryRec_score_pos {sid : Option Str} {levelId : Nat} {e : LBEntry}
    (h : entryRec sid levelId e) : 1 ≤ e.score := by
  obtain ⟨cl, _, hm, hsc, _⟩ := h
  rw [hsc]
  exact List.length_pos.mpr (List.ne_nil_of_mem hm)

theorem updateFirst_u_mem (u : Str) (f : LBEntry → LBEntry) :
    ∀ lb : List LBEntry, (lb.map (fun e => e.username)).Nodup →
      ∀ e ∈ updateFirst u f lb, e.username = u → ∃ e0, e0 ∈ lb ∧ e = f e0 := by
  intro lb
  induction lb with
  | nil => intro _ e he; exact absurd he (by simp [updateFirst])
  | cons a rest ih =>
    intro hnd e he heu
    simp only [List.map_cons, List.nodup_cons] at hnd
    obtain ⟨hnotin, hnd2⟩ := hnd
    by_cases hau : a.username = u
    · rw [updateFirst_cons, if_pos hau] at he
      rcases List.mem_cons.mp he with rfl | h2
      · exact ⟨a, List.mem_cons_self a rest, rfl⟩
      · exfalso
        apply hnotin
        rw [hau]
        exact List.mem_map.mpr ⟨e, h2, heu⟩
    · rw [updateFirst_cons, if_neg hau] at he
      rcases List.mem_cons.mp he with rfl | h2
      · exact absurd heu hau
      · obtain ⟨e0, he0, hfe⟩ := ih hnd2 e h2 heu
        exact ⟨e0, List.mem_cons_of_mem a he0, hfe⟩

theorem updateEntries_u_rec (u : Str) (sid : Option Str) (levelId : Nat)
    (lb : List LBEntry) (hnd : (lb.map (fun e => e.username)).Nodup)
    (e : LBEntry) (he : e ∈ updateEntries u sid levelId lb) (heu : e.username = u) :
    entryRec sid levelId e := by
  by_cases hany : lb.any (fun e => e.username = u) = true
  · unfold updateEntries at he
    rw [if_pos hany] at he
    obtain ⟨e0, _, rfl⟩ := updateFirst_u_mem u _ lb hnd e he heu
    exact refreshEntry_rec sid levelId e0
  · unfold updateEntries at he
    rw [if_neg hany] at he
    rcases List.mem_append.mp he with h2 | h2
    · exact absurd (List.any_eq_true.mpr ⟨e, h2, by simp [heu]⟩) hany
    · rw [List.mem_singleton.mp h2]
      exact freshEntry_rec sid u levelId

theorem updateEntries_u_present (u : Str) (sid : Option Str) (levelId : Nat)
    (lb : List LBEntry) :
    u ∈ (updateEntries u sid levelId lb).map (fun e => e.username) := by
  unfold updateEntries
  by_cases hany : lb.any (fun e => e.username = u) = true
  · rw [if_pos hany, updateFirst_map_username u (refreshEntry sid levelId) (fun e => rfl) lb]
    obtain ⟨e, he, hp⟩ := List.any_eq_true.mp hany
    exact List.mem_map.mpr ⟨e, he, by simpa using hp⟩
  · rw [if_neg hany, List.map_append]
    exact List.mem_append.mpr (Or.inr (by simp [freshEntry]))

theorem refreshEntry_fixed (sid : Option Str) (levelId : Nat) (e : LBEntry)
    (h : entryRec sid levelId e) : refreshEntry sid levelId e = e := by
  obtain ⟨cl, hcl, hm, hsc, hsid⟩ := h
  obtain ⟨s0, u0, c0, sc0⟩ := e
  simp only at hcl hsc hsid
  subst hcl
  subst hsc
  subst hsid
  simp [refreshEntry, hm]

theorem updateFirst_id (u : Str) (f : LBEntry → LBEntry) :
    ∀ l : List LBEntry, (∀ e ∈ l, e.username = u → f e = e) → updateFirst u f l = l := by
  intro l
  induction l with
  | nil => intro _; rfl
  | cons a rest ih =>
    intro h
    by_cases hau : a.username = u
    · rw [updateFirst_cons, if_pos hau, h a (List.mem_cons_self a rest) hau]
    · rw [updateFirst_cons, if_neg hau, ih (fun e he => h e (List.mem_cons_of_mem a he))]

/-- Applying `updateLBCore` to a list that already looks like one of its
outputs is the identity. -/
theorem updateLBCore_take_fixed (u : Str) (sid : Option Str) (levelId : Nat)
    (lb1 : List LBEntry) (hsorted : List.Sorted scoreRel lb1) (hlen : lb1.length ≤ 100)
    (hrec : ∀ e ∈ lb1, e.username = u → entryRec sid levelId e)
    (hdrop : ¬ u ∈ lb1.map (fun e => e.username) →
      lb1.length = 100 ∧ ∀ a ∈ lb1, 1 ≤ a.score) :
    updateLBCore u sid levelId lb1 = lb1 := by
  by_cases hany : lb1.any (fun e => e.username = u) = true
  · have hfix : updateEntries u sid levelId lb1 = lb1 := by
      unfold updateEntries
      rw [if_pos hany]
      exact updateFirst_id u _ lb1
        (fun e he heu => refreshEntry_fixed sid levelId e (hrec e he heu))
    unfold updateLBCore
    rw [hfix, show sortByScoreDesc lb1 = lb1 from hsorted.insertionSort_eq]
    exact List.take_of_length_le hlen
  · have hnotin : ¬ u ∈ lb1.map (fun e => e.username) := by
      intro hm
      obtain ⟨e, he, heu⟩ := List.mem_map.mp hm
      exact hany (List.any_eq_true.mpr ⟨e, he, by simp [heu]⟩)
    obtain ⟨hlen100, hpos⟩ := hdrop hnotin
    have hfix : updateEntries u sid levelId lb1 = lb1 ++ [freshEntry sid u levelId] := by
      unfold updateEntries
      rw [if_neg hany]
    have hsorted2 : List.Sorted scoreRel (lb1 ++ [freshEntry sid u levelId]) := by
      apply List.pairwise_append.mpr
      refine ⟨hsorted, List.pairwise_singleton _ _, fun a ha b hb => ?_⟩
      rw [List.mem_singleton.mp hb]
      exact hpos a ha
    unfold updateLBCore
    rw [hfix, show sortByScoreDesc (lb1 ++ [freshEntry sid u levelId]) =
        lb1 ++ [freshEntry sid u levelId] from hsorted2.insertionSort_eq]
    rw [← hlen100, List.take_left]

/-- One `updateLBCore` step after another with the same username, session id
and level is a no-op, provided the starting usernames are duplicate-free. -/
theorem updateLBCore_idem (u : Str) (sid : Option Str) (levelId : Nat)
    (lb : List LBEntry) (hnd : (lb.map (fun e => e.username)).Nodup) :
    updateLBCore u sid levelId (updateLBCore u sid levelId lb) =
      updateLBCore u sid levelId lb := by
  have hperm : List.Perm (sortByScoreDesc (updateEntries u sid levelId lb))
      (updateEntries u sid levelId lb) := List.perm_insertionSort _ _
  have hsortedS : List.Sorted scoreRel (sortByScoreDesc (updateEntries u sid levelId lb)) :=
    List.sorted_insertionSort _ _
  have hcore : updateLBCore u sid levelId lb =
      (sortByScoreDesc (updateEntries u sid levelId lb)).take 100 := rfl
  apply updateLBCore_take_fixed
  · rw [hcore]
    exact hsortedS.sublist (List.take_sublist _ _)
  · rw [hcore]
    exact List.length_take_le _ _
  · intro e he heu
    rw [hcore] at he
    exact updateEntries_u_rec u sid levelId lb hnd e
      (hperm.subset ((List.take_sublist _ _).subset he)) heu
  · intro hnotin
    rw [hcore] at hnotin ⊢
    have hupresent : u ∈ (sortByScoreDesc (updateEntries u sid levelId lb)).map
        (fun e => e.username) :=
      (hperm.map _).mem_iff.mpr (updateEntries_u_present u sid levelId lb)
    have hsplit : sortByScoreDesc (updateEntries u sid levelId lb) =
        (sortByScoreDesc (updateEntries u sid levelId lb)).take 100 ++
          (sortByScoreDesc (updateEntries u sid levelId lb)).drop 100 :=
      (List.take_append_drop 100 _).symm
    have hdropu : u ∈ ((sortByScoreDesc (updateEntries u sid levelId lb)).drop 100).map
        (fun e => e.username) := by
      rcases List.mem_append.mp
          (by rw [← List.map_append, ← hsplit]; exact hupresent) with h2 | h2
      · exact absurd h2 hnotin
      · exact h2
    obtain ⟨estar, hestar, hustar⟩ := List.mem_map.mp hdropu
    have hrecstar : entryRec sid levelId estar :=
      updateEntries_u_rec u sid levelId lb hnd estar
        (hperm.subset ((List.drop_sublist _ _).subset hestar)) hustar
    have hge : ∀ a ∈ (sortByScoreDesc (updateEntries u sid levelId lb)).take 100,
        scoreRel a estar := by
      have hp := hsortedS
      rw [hsplit] at hp
      exact fun a ha => (List.pairwise_append.mp hp).2.2 a ha estar hestar
    constructor
    · have hd : 100 ≤ (sortByScoreDesc (updateEntries u sid levelId lb)).length := by
        by_contra hcon
        push_neg at hcon
        exact List.ne_nil_of_mem hestar (List.drop_eq_nil_of_le (Nat.le_of_lt hcon))
      rw [List.length_take]
      omega
    · intro a ha
      exact Nat.le_trans (entryRec_score_pos hrecstar) (hge a ha)

theorem recordLevelComplete_uiSession (st : Store) (freshId : Str) (levelId : Nat) :
    (recordLevelComplete st freshId levelId).uiSession = st.uiSession := by
  show (updateLeaderboardForLevel
      (setGameState (getGameState st freshId).2
        (recordDoc (getGameState st freshId).1 levelId)) freshId levelId).uiSession = _
  unfold updateLeaderboardForLevel
  dsimp only
  rw [show ∀ (x : Store) (l : List LBEntry), (setLeaderboard x l).uiSession = x.uiSession
      from fun x l => rfl]
  rw [getGameState_snd_uiSession]
  rw [show ∀ (x : Store) (s : GameStateDoc), (setGameState x s).uiSession = x.uiSession
      from fun x s => rfl]
  rw [getGameState_snd_uiSession]

theorem recordLevelComplete_gameState (st : Store) (freshId : Str) (levelId : Nat) :
    (recordLevelComplete st freshId levelId).gameState =
      StoredRaw.doc (recordDoc (getGameState st freshId).1 levelId) := by
  have hsid : jsFalsyStr (recordDoc (getGameState st freshId).1 levelId).sessionId = false := by
    rw [recordDoc_sessionId]
    exact getGameState_fst_sessionId_ok st freshId
  show (updateLeaderboardForLevel
      (setGameState (getGameState st freshId).2
        (recordDoc (getGameState st freshId).1 levelId)) freshId levelId).gameState = _
  unfold updateLeaderboardForLevel
  dsimp only
  rw [show ∀ (x : Store) (l : List LBEntry), (setLeaderboard x l).gameState = x.gameState
      from fun x l => rfl]
  rw [getGameState_setGameState _ _ freshId hsid]
  rfl

theorem getGameState_doc_ok (st : Store) (state : GameStateDoc) (freshId : Str)
    (hdoc : st.gameState = StoredRaw.doc state)
    (hsid : jsFalsyStr state.sessionId = false) :
    getGameState st freshId = (state, st) := by
  unfold getGameState
  rw [show getStorage st.gameState gameStateFallback = state by rw [hdoc]; rfl]
  simp [hsid]

theorem getGameState_after_record (st : Store) (f1 f2 : Str) (levelId : Nat) :
    getGameState (recordLevelComplete st f1 levelId) f2 =
      (recordDoc (getGameState st f1).1 levelId, recordLevelComplete st f1 levelId) := by
  apply getGameState_doc_ok
  · exact recordLevelComplete_gameState st f1 levelId
  · rw [recordDoc_sessionId]
    exact getGameState_fst_sessionId_ok st f1

/-! ### C2 -/

/-- The ui session of the C2 counterexample: active username `"A"`. -/
def cexUi : UiSessionDoc :=
  { screenType := strL "home", levelId := none, username := some (strL "A"),
    developerMode := false }

/-- The game state of the C2 counterexample. -/
def cexGs : GameStateDoc :=
  { sessionId := some (strL "s"), currentLevel := 1, completedLevels := [],
    levels := fun _ => none }

/-- A leaderboard with two entries under the same username `"A"`. -/
def cexEntry1 : LBEntry :=
  { sessionId := some (strL "x"), username := strL "A", completedLevels := some [],
    score := 0 }

/-- The second `"A"` entry of the C2 counterexample. -/
def cexEntry2 : LBEntry :=
  { sessionId := some (strL "y"), username := strL "A", completedLevels := some [1, 2],
    score := 2 }

/-- The starting store of the C2 counterexample. -/
def cexStore : Store :=
  { uiSession := .doc cexUi, gameState := .doc cexGs,
    leaderboard := .doc [cexEntry1, cexEntry2] }

/-- C2 counterexample: from a starting leaderboard holding two entries under
the same username (a state the code itself never produces, but the claim
quantifies over every starting leaderboard), completing level 3 once shows
score 2 for username `"A"` while completing it twice shows score 3 — the
first call updates one `"A"` entry, the re-sort moves the other `"A"` entry
in front of it, and the second call updates that other entry. -/
theorem recordLevelComplete_twice_cex :
    lookupScore (strL "A") (getLeaderboard (recordLevelComplete cexStore (strL "f") 3)) =
      some 2 ∧
    lookupScore (strL "A")
        (getLeaderboard
          (recordLevelComplete (recordLevelComplete cexStore (strL "f") 3) (strL "g") 3)) =
      some 3 :=
  ⟨by decide, by decide⟩

/-- C2 (amended): for every starting store whose leaderboard has pairwise
distinct usernames — which by C1 includes every leaderboard the code itself
can produce — calling `recordLevelComplete` twice in succession yields the
same `completedLevels`, the same `currentLevel` and the same leaderboard
score for the active username as calling it once. -/
theorem recordLevelComplete_idem (st : Store) (f1 f2 : Str) (levelId : Nat)
    (hnd : ((getLeaderboard st).map (fun e => e.username)).Nodup) :
    clOf (recordLevelComplete (recordLevelComplete st f1 levelId) f2 levelId) =
      clOf (recordLevelComplete st f1 levelId) ∧
    curOf (recordLevelComplete (recordLevelComplete st f1 levelId) f2 levelId) =
      curOf (recordLevelComplete st f1 levelId) ∧
    lookupScore (jsOrPlayer (getUiSession st).username)
        (getLeaderboard
          (recordLevelComplete (recordLevelComplete st f1 levelId) f2 levelId)) =
      lookupScore (jsOrPlayer (getUiSession st).username)
        (getLeaderboard (recordLevelComplete st f1 levelId)) := by
  refine ⟨?_, ?_, ?_⟩
  · have hmem1 : levelId ∈ clOf (recordLevelComplete st f1 levelId) := by
      rw [recordLevelComplete_clOf]
      by_cases hm : levelId ∈ clOf st
      · rw [if_pos hm]; exact hm
      · rw [if_neg hm]
        exact List.mem_append.mpr (Or.inr (List.mem_singleton.mpr rfl))
    rw [recordLevelComplete_clOf (recordLevelComplete st f1 levelId) f2 levelId,
      if_pos hmem1]
  · have hgt : ¬ curOf (recordLevelComplete st f1 levelId) ≤ levelId := by
      rw [recordLevelComplete_curOf]
      by_cases hc : curOf st ≤ levelId
      · rw [if_pos hc]; omega
      · rw [if_neg hc]; omega
    rw [recordLevelComplete_curOf (recordLevelComplete st f1 levelId) f2 levelId,
      if_neg hgt]
  · rw [getLeaderboard_recordLevelComplete (recordLevelComplete st f1 levelId) f2 levelId]
    rw [show getUiSession (recordLevelComplete st f1 levelId) = getUiSession st from by
      unfold getUiSession
      rw [recordLevelComplete_uiSession]]
    rw [getGameState_after_record st f1 f2 levelId]
    dsimp only
    rw [recordDoc_sessionId]
    rw [getLeaderboard_recordLevelComplete st f1 levelId]
    rw [updateLBCore_idem _ _ _ _ hnd]

/-- C2 witness: idempotence at a concrete store with a duplicate-free (empty)
leaderboard. -/
theorem recordLevelComplete_idem_w :
    clOf (recordLevelComplete (recordLevelComplete emptyStore (strL "r") 3) (strL "s") 3) =
      clOf (recordLevelComplete emptyStore (strL "r") 3) ∧
    curOf (recordLevelComplete (recordLevelComplete emptyStore (strL "r") 3) (strL "s") 3) =
      curOf (recordLevelComplete emptyStore (strL "r") 3) ∧
    lookupScore (jsOrPlayer (getUiSession emptyStore).username)
        (getLeaderboard
          (recordLevelComplete (recordLevelComplete emptyStore (strL "r") 3) (strL "s") 3)) =
      lookupScore (jsOrPlayer (getUiSession emptyStore).username)
        (getLeaderboard (recordLevelComplete emptyStore (strL "r") 3)) :=
  recordLevelComplete_idem emptyStore (strL "r") (strL "s") 3 (by decide)

/-! ### Evaluation checks of the embedding against the JS semantics -/

example : sanitizeAnswer (strL "  hello  ") = strL "hello" := by decide
example : sanitizeAnswer (strL "https://tree.com") = strL "tree.com" := by decide
example : sanitizeAnswer (strL "timber.com") = strL "timber.com" := by decide
example : sanitizeAnswer (strL "a http://b.com") = strL "a http://b.com" := by decide
example : sanitizeUsername (strL "<script>bob</script>") = strL "bob" := by decide
example : sanitizeUsername (strL "http://google.com") = strL "http:" := by decide
example : sanitizeUsername (strL "google.com") = strL "google" := by decide
example : sanitizeUsername (strL "   ") = playerName := by decide
example : stripTags (strL "<b>Hello</b>") = strL "Hello" := by decide
example : stripTags (strL "<<a>") = [] := by decide
example : stripTags (strL "<>x") = strL "<>x" := by decide
example : isUrlish (strL "Player") = false := by decide
example : isUrlish (strL "see HTTP://x") = true := by decide
example : isUrlish (strL "xhttp://a") = false := by decide
example : isUrlish (strL "a.Com!") = true := by decide
example : isUrlish (strL "a.comx") = false := by decide
example : isUrlish (strL ".com") = false := by decide
example :
    checkWin { id := 3, systemPrompt := [], winKeywords := some [some (strL "willow")],
               winRegex := none } (some (strL "I love WILLOW trees")) = true := by decide
example :
    checkWin { id := 3, systemPrompt := [], winKeywords := some [some []],
               winRegex := none } (some (strL "anything")) = false := by decide

end Beavers
